import Mathlib

/-!
# Verification of the ib_platform request admission / correlation engine

Shallow embedding of the Python sources `IBApp.py`, `IBUtils.py` and
`getHistoricalData.py`.  Python dictionaries (which preserve insertion order)
are modelled as association lists with unique keys; machine floats (strikes
and prices) are modelled as rationals; wall-clock timestamps as naturals
(seconds for the pacing queue, minutes for the session-bucket computation).
Code that can raise a Python exception is modelled in `Except String`;
blocking poll loops are modelled as interpreters over an explicit script of
the events the other thread may deliver while the loop spins.
-/

namespace IBPlatform

/-! ## Association lists modelling Python `dict`

Python 3.7+ dicts preserve insertion order: assigning to an existing key
updates it in place, assigning to a fresh key appends it at the end, and
`del` removes the (unique) binding.  `alookup`, `ainsert`, `aremove` model
exactly that on association lists whose keys are kept `Nodup`. -/

def alookup {α β : Type} [DecidableEq α] : List (α × β) → α → Option β
  | [], _ => none
  | (k, v) :: rest, k' => if k' = k then some v else alookup rest k'

def ainsert {α β : Type} [DecidableEq α] : List (α × β) → α → β → List (α × β)
  | [], k, v => [(k, v)]
  | (k0, v0) :: rest, k, v =>
      if k = k0 then (k, v) :: rest else (k0, v0) :: ainsert rest k v

def aremove {α β : Type} [DecidableEq α] : List (α × β) → α → List (α × β)
  | [], _ => []
  | (k0, v0) :: rest, k =>
      if k = k0 then rest else (k0, v0) :: aremove rest k

def akeys {α β : Type} (l : List (α × β)) : List α := l.map Prod.fst

section AListLemmas

variable {α β : Type}

@[simp] theorem akeys_nil : akeys ([] : List (α × β)) = [] := rfl

@[simp] theorem akeys_cons (k0 : α) (v0 : β) (rest : List (α × β)) :
    akeys ((k0, v0) :: rest) = k0 :: akeys rest := rfl

@[simp] theorem akeys_append (l1 l2 : List (α × β)) :
    akeys (l1 ++ l2) = akeys l1 ++ akeys l2 := by
  simp [akeys]

variable [DecidableEq α]

theorem alookup_ainsert_self (l : List (α × β)) (k : α) (v : β) :
    alookup (ainsert l k v) k = some v := by
  induction l with
  | nil => simp [ainsert, alookup]
  | cons p rest ih =>
      obtain ⟨k0, v0⟩ := p
      by_cases h : k = k0 <;> simp [ainsert, alookup, h, ih]

theorem alookup_ainsert_ne (l : List (α × β)) (k k' : α) (v : β) (h : k' ≠ k) :
    alookup (ainsert l k v) k' = alookup l k' := by
  induction l with
  | nil => simp [ainsert, alookup, h]
  | cons p rest ih =>
      obtain ⟨k0, v0⟩ := p
      by_cases hk : k = k0
      · subst hk; simp [ainsert, alookup, h]
      · by_cases hk' : k' = k0 <;> simp [ainsert, alookup, hk, hk', ih]

theorem akeys_ainsert_of_mem (l : List (α × β)) (k : α) (v : β)
    (h : k ∈ akeys l) : akeys (ainsert l k v) = akeys l := by
  induction l with
  | nil => simp at h
  | cons p rest ih =>
      obtain ⟨k0, v0⟩ := p
      by_cases hk : k = k0
      · subst hk; simp [ainsert]
      · rw [akeys_cons, List.mem_cons] at h
        rcases h with h | h
        · exact absurd h hk
        · simp [ainsert, hk, ih h]

theorem akeys_ainsert_of_not_mem (l : List (α × β)) (k : α) (v : β)
    (h : k ∉ akeys l) : ainsert l k v = l ++ [(k, v)] := by
  induction l with
  | nil => simp [ainsert]
  | cons p rest ih =>
      obtain ⟨k0, v0⟩ := p
      rw [akeys_cons, List.mem_cons] at h
      push_neg at h
      simp [ainsert, h.1, ih h.2]

theorem mem_akeys_ainsert (l : List (α × β)) (k k' : α) (v : β)
    (h : k' ∈ akeys l) : k' ∈ akeys (ainsert l k v) := by
  by_cases hmem : k ∈ akeys l
  · rwa [akeys_ainsert_of_mem l k v hmem]
  · rw [akeys_ainsert_of_not_mem l k v hmem]
    simp [h]

theorem self_mem_akeys_ainsert (l : List (α × β)) (k : α) (v : β) :
    k ∈ akeys (ainsert l k v) := by
  by_cases hmem : k ∈ akeys l
  · rwa [akeys_ainsert_of_mem l k v hmem]
  · rw [akeys_ainsert_of_not_mem l k v hmem]
    simp

theorem aremove_of_nodup (l : List (α × β)) (k : α)
    (h : (akeys l).Nodup) :
    aremove l k = l.filter (fun p => decide (p.1 ≠ k)) := by
  induction l with
  | nil => simp [aremove]
  | cons p rest ih =>
      obtain ⟨k0, v0⟩ := p
      rw [akeys_cons, List.nodup_cons] at h
      by_cases hk : k = k0
      · subst hk
        have hall : ∀ p ∈ rest, decide (p.1 ≠ k) = true := by
          intro p hp
          simp only [decide_eq_true_eq]
          intro hcontra
          exact h.1 (hcontra ▸ List.mem_map_of_mem Prod.fst hp)
        have heq : List.filter (fun p => decide (p.1 ≠ k)) rest = rest :=
          List.filter_eq_self.mpr hall
        rw [List.filter_cons, heq]
        simp [aremove]
      · rw [List.filter_cons]
        have : (decide ((k0, v0).1 ≠ k)) = true := by
          simp only [decide_eq_true_eq]
          exact fun hc => hk (hc.symm)
        rw [if_pos this, aremove, if_neg hk, ih h.2]

theorem alookup_eq_none_of_not_mem (l : List (α × β)) (k : α)
    (h : k ∉ akeys l) : alookup l k = none := by
  induction l with
  | nil => simp [alookup]
  | cons p rest ih =>
      obtain ⟨k0, v0⟩ := p
      rw [akeys_cons, List.mem_cons] at h
      push_neg at h
      simp [alookup, h.1, ih h.2]

theorem mem_akeys_of_alookup (l : List (α × β)) (k : α) (v : β)
    (h : alookup l k = some v) : k ∈ akeys l := by
  induction l with
  | nil => simp [alookup] at h
  | cons p rest ih =>
      obtain ⟨k0, v0⟩ := p
      by_cases hk : k = k0
      · simp [hk]
      · simp [alookup, hk] at h
        simp only [akeys_cons, List.mem_cons]
        exact Or.inr (ih h)

end AListLemmas

/-! ## Data model (`IBApp.py`)

`Contract`, `DataRequest`, the option-chain container `option_chain_data`
and the per-app mutable state of `IBapi` (registry, counters, pacing queue).
A Python registry entry is a dict whose key set differs between the OPT/STK
variants (`secType`, `data_request`, `time`) and the FX variant (`secType`,
`strike`, `bidOrAsk`, `callOrPut`, `time`); `RegEntry` models the union with
`Option` fields, `none` meaning the key is absent from the dict. -/

def OPEN_SPOT_PRICE_REQ_ID : ℕ := 1

def ALL_OPTION_CONTRACTS_DETAILS_REQ_ID : ℕ := 2

structure Contract where
  symbol : String
  secType : String
  strike : ℚ
  right : String

structure DataRequest where
  contract : Contract
  query_time : ℕ
  interval_size : ℕ
  bid_or_ask : String
  req_id : ℤ

structure RegEntry where
  secType : String
  data_request : Option DataRequest
  strike : Option ℚ
  bidOrAsk : Option String
  callOrPut : Option String
  time : ℕ

structure option_chain_data where
  underline : String
  open_spot_price : ℚ
  all_contracts : List (ℚ × List (String × Contract))
  all_contracts_fetched : Bool

structure AppState where
  req_id_to_contract : List (ℕ × RegEntry)
  open_requests : ℤ
  sent_time_queue : List ℕ
  contracts_to_delete : List (ℚ × List String)
  chain : option_chain_data
  mode : String
  shift_hours : ℕ

/-- A bar's timestamp, pre-parsed into the hour component (which
`IBapi.historicalData` shifts) and the remaining minute/second component. -/
structure Bar where
  hour : ℕ
  minsec : ℕ
  bopen : ℚ
  bhigh : ℚ
  blow : ℚ
  bclose : ℚ

/-! ## Pacing gate (`getHistoricalData.py`, `check_pacing_violations`)

The gate runs on the orchestrator thread; while it spins, the response
thread may decrement `open_requests` (completions via `historicalDataEnd`
and no-data failures via `error`).  The response thread never touches
`sent_time_queue` and the orchestrator (the only admitter) is blocked
inside the gate, so admissions cannot interleave with a gate call.  A
`PEvent` script fixes one interleaving: `tick now` is one pass of the
gate's own loop body at wall-clock second `now`, `dec` is a concurrent
decrement by the response thread. -/

inductive PEvent where
  | tick (now : ℕ)
  | dec

/-- `(datetime.now() - sent_time_queue[0]).seconds / 60 > 10`: the head of
the queue is older than the rolling 10-minute window (timestamps in
seconds, true float division, so the check is `now - t > 600`). -/
def headIsOld (now : ℕ) (q : List ℕ) : Bool :=
  match q with
  | [] => false
  | t :: _ => decide (600 < now - t)

/-- One pass of the first `while` loop's body: pop the head if it has aged
out of the window (the `time.sleep(0.01)` is dropped). -/
def pacingStep1 (e : PEvent) (s : AppState) : AppState :=
  match e with
  | PEvent.tick now =>
      if headIsOld now s.sent_time_queue then
        { s with sent_time_queue := s.sent_time_queue.tail }
      else s
  | PEvent.dec => { s with open_requests := s.open_requests - 1 }

/-- First loop: `while len(app.sent_time_queue) > 58: ...`.  Returns the
state and the unconsumed script when the loop exits; `none` if the script
ends while the loop still spins. -/
def pacingLoop1 : List PEvent → AppState → Option (AppState × List PEvent)
  | [], s => if s.sent_time_queue.length ≤ 58 then some (s, []) else none
  | e :: rest, s =>
      if s.sent_time_queue.length ≤ 58 then some (s, e :: rest)
      else pacingLoop1 rest (pacingStep1 e s)

/-- During the second loop the gate thread only sleeps, so its own `tick`
is a no-op; concurrent decrements still apply. -/
def pacingStep2 (e : PEvent) (s : AppState) : AppState :=
  match e with
  | PEvent.tick _ => s
  | PEvent.dec => { s with open_requests := s.open_requests - 1 }

/-- Second loop: `while app.open_requests > 49: time.sleep(0.01)`. -/
def pacingLoop2 : List PEvent → AppState → Option AppState
  | [], s => if s.open_requests ≤ 49 then some s else none
  | e :: rest, s =>
      if s.open_requests ≤ 49 then some s
      else pacingLoop2 rest (pacingStep2 e s)

/-- `check_pacing_violations(app)` (the initial `isConnected` wait is
connection plumbing and is outside the model's scope): run the queue-length
loop, then the open-request loop, under the interleaving given by `evs`. -/
def check_pacing_violations (evs : List PEvent) (s : AppState) : Option AppState :=
  match pacingLoop1 evs s with
  | none => none
  | some (s1, rest) => pacingLoop2 rest s1

/-- Number of queue entries still inside the rolling 10-minute window at
wall-clock second `now`. -/
def youngCount (now : ℕ) (q : List ℕ) : ℕ :=
  (q.filter (fun t => decide (now - t ≤ 600))).length

theorem pacingLoop1_length {evs : List PEvent} {s s1 : AppState}
    {rest : List PEvent} (h : pacingLoop1 evs s = some (s1, rest)) :
    s1.sent_time_queue.length ≤ 58 := by
  induction evs generalizing s with
  | nil =>
      by_cases hc : s.sent_time_queue.length ≤ 58
      · simp [pacingLoop1, hc] at h
        rw [← h.1]
        exact hc
      · simp [pacingLoop1, hc] at h
  | cons e evs ih =>
      by_cases hc : s.sent_time_queue.length ≤ 58
      · simp [pacingLoop1, hc] at h
        rw [← h.1]
        exact hc
      · simp only [pacingLoop1, if_neg hc] at h
        exact ih h

theorem pacingLoop2_spec {evs : List PEvent} {s s' : AppState}
    (h : pacingLoop2 evs s = some s') :
    s'.open_requests ≤ 49 ∧ s'.sent_time_queue = s.sent_time_queue := by
  induction evs generalizing s with
  | nil =>
      by_cases hc : s.open_requests ≤ 49
      · simp [pacingLoop2, hc] at h
        rw [← h]
        exact ⟨hc, rfl⟩
      · simp [pacingLoop2, hc] at h
  | cons e evs ih =>
      by_cases hc : s.open_requests ≤ 49
      · simp [pacingLoop2, hc] at h
        rw [← h]
        exact ⟨hc, rfl⟩
      · simp only [pacingLoop2, if_neg hc] at h
        rcases ih h with ⟨h1, h2⟩
        refine ⟨h1, h2.trans ?_⟩
        cases e <;> rfl

theorem youngCount_le_length (now : ℕ) (q : List ℕ) :
    youngCount now q ≤ q.length :=
  List.length_filter_le _ q

/-- C1 (amended): whenever `check_pacing_violations` returns — for every
start state and every interleaving of gate passes with concurrent
completions — the sent-time queue holds at most 58 entries (hence at most
58 inside the rolling window) and `open_requests` is at most 49.  The
source thresholds are `> 58` and `> 49` (headroom under the provider's
60-per-10-minutes and 50-concurrent limits), so the gate may legitimately
return with exactly 58 window entries or exactly 49 outstanding requests. -/
theorem check_pacing_violations_bounds (evs : List PEvent) (s s' : AppState)
    (now : ℕ) (h : check_pacing_violations evs s = some s') :
    s'.sent_time_queue.length ≤ 58 ∧ s'.open_requests ≤ 49 ∧
    youngCount now s'.sent_time_queue ≤ 58 := by
  unfold check_pacing_violations at h
  cases h1 : pacingLoop1 evs s with
  | none => rw [h1] at h; exact absurd h (by simp)
  | some p =>
      obtain ⟨s1, rest⟩ := p
      rw [h1] at h
      have hq := pacingLoop1_length h1
      rcases pacingLoop2_spec h with ⟨hopen, hqueue⟩
      have hlen : s'.sent_time_queue.length ≤ 58 := by rw [hqueue]; exact hq
      exact ⟨hlen, hopen,
        le_trans (youngCount_le_length now s'.sent_time_queue) hlen⟩

/-- A state with 57 in-window timestamps queued and 49 requests
outstanding: the gate admits immediately. -/
def pacingClaimState : AppState :=
  { req_id_to_contract := []
    open_requests := 49
    sent_time_queue := List.replicate 57 1000
    contracts_to_delete := []
    chain := { underline := "SPY", open_spot_price := -1, all_contracts := [],
               all_contracts_fetched := false }
    mode := "historical"
    shift_hours := 0 }

/-- C1 (counterexample to the claim as stated): with the limits the claim
names (R = 58, C = 49), `check_pacing_violations` returns at once from a
state holding 57 entries younger than the window — more than R − 2 = 56 —
and with `open_requests = 49 ≥ C`.  The code's actual thresholds are
`> 58` queued and `> 49` outstanding. -/
theorem check_pacing_violations_claim_false :
    check_pacing_violations [] pacingClaimState = some pacingClaimState ∧
    56 < youngCount 1000 pacingClaimState.sent_time_queue ∧
    49 ≤ pacingClaimState.open_requests := by
  refine ⟨rfl, ?_, ?_⟩ <;> decide

/-- C1 witness: the amended theorem applied at a concrete gate run. -/
theorem check_pacing_violations_bounds_witness :
    pacingClaimState.sent_time_queue.length ≤ 58 ∧
    pacingClaimState.open_requests ≤ 49 ∧
    youngCount 1000 pacingClaimState.sent_time_queue ≤ 58 :=
  check_pacing_violations_bounds [] pacingClaimState pacingClaimState 1000 rfl

/-! ## Correlation-id generation (`IBUtils.py`, `get_req_id`)

`randint(10, 99999)` is modelled by an explicit stream of draws; the
caller's hypothesis that each draw lies in `[10, 99999]` is `randint`'s
contract.  The retry loop takes the first draw not already in use and
returns it together with the unconsumed stream. -/

def get_req_id : List ℕ → List ℕ → Option (ℕ × List ℕ)
  | [], _ => none
  | d :: rest, used => if d ∈ used then get_req_id rest used else some (d, rest)

theorem get_req_id_not_mem {draws used rest : List ℕ} {rid : ℕ}
    (h : get_req_id draws used = some (rid, rest)) : rid ∉ used := by
  induction draws with
  | nil => simp [get_req_id] at h
  | cons d ds ih =>
      by_cases hd : d ∈ used
      · simp only [get_req_id, if_pos hd] at h
        exact ih h
      · simp [get_req_id, hd] at h
        rw [← h.1]
        exact hd

theorem get_req_id_mem_draws {draws used rest : List ℕ} {rid : ℕ}
    (h : get_req_id draws used = some (rid, rest)) : rid ∈ draws := by
  induction draws with
  | nil => simp [get_req_id] at h
  | cons d ds ih =>
      by_cases hd : d ∈ used
      · simp only [get_req_id, if_pos hd] at h
        exact List.mem_cons_of_mem d (ih h)
      · simp [get_req_id, hd] at h
        simp [h.1]

theorem get_req_id_rest_subset {draws used rest : List ℕ} {rid : ℕ}
    (h : get_req_id draws used = some (rid, rest)) : ∀ x ∈ rest, x ∈ draws := by
  induction draws with
  | nil => simp [get_req_id] at h
  | cons d ds ih =>
      by_cases hd : d ∈ used
      · simp only [get_req_id, if_pos hd] at h
        exact fun x hx => List.mem_cons_of_mem d (ih h x hx)
      · simp [get_req_id, hd] at h
        rw [← h.2]
        exact fun x hx => List.mem_cons_of_mem d hx

/-! ## Registration and response routing (`IBApp.py`) -/

/-- `OPT.send_historical_data_request`: the base class appends the send
time to the pacing queue and increments the outstanding counter, then the
subclass draws a fresh correlation id and stores the registry entry (the
`reqHistoricalData` wire call carries no state).  Returns the new state,
the assigned id and the unconsumed draw stream; `none` when the draw
stream runs out while the `randint` retry loop would still be spinning. -/
def OPT_send_historical_data_request (s : AppState) (dr : DataRequest)
    (draws : List ℕ) (now : ℕ) : Option (AppState × ℕ × List ℕ) :=
  let s1 := { s with sent_time_queue := s.sent_time_queue ++ [now],
                     open_requests := s.open_requests + 1 }
  match get_req_id draws (akeys s1.req_id_to_contract) with
  | none => none
  | some (rid, rest) =>
      let entry : RegEntry :=
        { secType := "OPT", data_request := some { dr with req_id := (rid : ℤ) },
          strike := none, bidOrAsk := none, callOrPut := none, time := now }
      some ({ s1 with req_id_to_contract := ainsert s1.req_id_to_contract rid entry },
            rid, rest)

/-- `IBapi.historicalDataEnd`: a tracked id is logged (reading
`entry["data_request"]`, a `KeyError` when that key is absent), removed
from the registry and the counter decremented; the reference-price pseudo
id is a no-op; anything else raises. -/
def historicalDataEnd (s : AppState) (req_id : ℕ) : Except String AppState :=
  match alookup s.req_id_to_contract req_id with
  | some entry =>
      match entry.data_request with
      | none => Except.error "KeyError: data_request"
      | some _ =>
          Except.ok { s with req_id_to_contract := aremove s.req_id_to_contract req_id,
                             open_requests := s.open_requests - 1 }
  | none =>
      if req_id = OPEN_SPOT_PRICE_REQ_ID then Except.ok s
      else Except.error "Unknown req_id!!!"

/-- `contracts_to_delete` is a `defaultdict(list)`: append the side to the
strike's list, creating the key if needed. -/
def ctdAppend (l : List (ℚ × List String)) (strike : ℚ) (side : String) :
    List (ℚ × List String) :=
  match alookup l strike with
  | none => l ++ [(strike, [side])]
  | some sides => ainsert l strike (sides ++ [side])

/-- Python's `str.split(c)`: split on every occurrence of the character,
keeping empty pieces (structural recursion over the character list). -/
def splitCharAux (c : Char) : List Char → List Char → List (List Char)
  | [], acc => [acc.reverse]
  | x :: xs, acc =>
      if x = c then acc.reverse :: splitCharAux c xs []
      else splitCharAux c xs (x :: acc)

def pysplit (s : String) (c : Char) : List String :=
  (splitCharAux c s.data []).map String.mk

/-- `IBapi.error`: transient farm-status codes are ignored in historical
mode; for a tracked id the handler reads
`req_id_to_contract[req_id]["data_request"].contract.strike` (a `KeyError`
when the entry has no `data_request` key), then — for code 162 with the
"HMDS query returned no data" text after the first colon — queues the
(strike, side) for removal and decrements `open_requests`.  The registry
entry itself is never touched. -/
def error (s : AppState) (req_id : ℕ) (error_code : ℤ) (error_string : String) :
    Except String AppState :=
  if s.mode = "historical" ∧ error_code ∈ ([2103, 2104, 2108, 2157, 2158] : List ℤ) then
    Except.ok s
  else
    match alookup s.req_id_to_contract req_id with
    | none => Except.ok s
    | some entry =>
        match entry.data_request with
        | none => Except.error "KeyError: data_request"
        | some dr =>
            if error_code = 162 then
              match (pysplit error_string ':')[1]? with
              | none => Except.error "IndexError"
              | some part =>
                  if part = "HMDS query returned no data" then
                    Except.ok { s with
                      contracts_to_delete :=
                        ctdAppend s.contracts_to_delete dr.contract.strike dr.contract.right,
                      open_requests := s.open_requests - 1 }
                  else Except.ok s
            else Except.ok s

theorem ainsert_length_of_not_mem {α β : Type} [DecidableEq α]
    {l : List (α × β)} {k : α} {v : β} (h : k ∉ akeys l) :
    (ainsert l k v).length = l.length + 1 := by
  rw [akeys_ainsert_of_not_mem l k v h]
  simp

theorem aremove_length_of_lookup {α β : Type} [DecidableEq α]
    {l : List (α × β)} {k : α} {v : β} (h : alookup l k = some v) :
    (aremove l k).length + 1 = l.length := by
  induction l with
  | nil => simp [alookup] at h
  | cons p rest ih =>
      obtain ⟨k0, v0⟩ := p
      by_cases hk : k = k0
      · simp [aremove, hk]
      · simp [alookup, hk] at h
        simp [aremove, hk, ih h]

/-- C2 (amended): the outstanding-request counter stays equal to the
registry size across registration (`OPT.send_historical_data_request`) and
normal completion (`historicalDataEnd`), but the "no data" error path
(code 162) decrements the counter while leaving the registry entry in
place — with the same contract as before — so after such an error the
counter equals the registry size minus one, not the registry size. -/
theorem counter_registry_sync_paths :
    (∀ (s : AppState) (dr : DataRequest) (draws : List ℕ) (now : ℕ)
        (s' : AppState) (rid : ℕ) (rest : List ℕ),
        OPT_send_historical_data_request s dr draws now = some (s', rid, rest) →
        s.open_requests = (s.req_id_to_contract.length : ℤ) →
        s'.open_requests = (s'.req_id_to_contract.length : ℤ)) ∧
    (∀ (s : AppState) (req_id : ℕ) (s' : AppState),
        historicalDataEnd s req_id = Except.ok s' →
        s.open_requests = (s.req_id_to_contract.length : ℤ) →
        s'.open_requests = (s'.req_id_to_contract.length : ℤ)) ∧
    (∀ (s : AppState) (req_id : ℕ) (entry : RegEntry) (dr : DataRequest)
        (emsg : String) (s' : AppState),
        alookup s.req_id_to_contract req_id = some entry →
        entry.data_request = some dr →
        (pysplit emsg ':')[1]? = some "HMDS query returned no data" →
        error s req_id 162 emsg = Except.ok s' →
        s.open_requests = (s.req_id_to_contract.length : ℤ) →
        alookup s'.req_id_to_contract req_id = some entry ∧
        s'.req_id_to_contract = s.req_id_to_contract ∧
        s'.open_requests = (s'.req_id_to_contract.length : ℤ) - 1) := by
  refine ⟨?_, ?_, ?_⟩
  · intro s dr draws now s' rid rest h hinv
    simp only [OPT_send_historical_data_request] at h
    cases hg : get_req_id draws (akeys s.req_id_to_contract) with
    | none => simp [hg] at h
    | some p =>
        obtain ⟨rid0, rest0⟩ := p
        simp [hg] at h
        obtain ⟨hs, _hrid, _hrest⟩ := h
        have hfresh : rid0 ∉ akeys s.req_id_to_contract := get_req_id_not_mem hg
        rw [← hs]
        simp only []
        rw [ainsert_length_of_not_mem hfresh]
        push_cast
        omega
  · intro s req_id s' h hinv
    cases hl : alookup s.req_id_to_contract req_id with
    | some entry =>
        cases hd : entry.data_request with
        | none => simp [historicalDataEnd, hl, hd] at h
        | some dr0 =>
            simp [historicalDataEnd, hl, hd] at h
            have hlen := aremove_length_of_lookup hl
            rw [← h]
            simp only []
            rw [hinv]
            have hc : ((aremove s.req_id_to_contract req_id).length : ℤ) + 1 =
                (s.req_id_to_contract.length : ℤ) := by
              exact_mod_cast congrArg (Nat.cast : ℕ → ℤ) hlen
            omega
    | none =>
        by_cases h1 : req_id = OPEN_SPOT_PRICE_REQ_ID
        · subst h1
          simp [historicalDataEnd, hl] at h
          rw [← h]; exact hinv
        · simp [historicalDataEnd, hl, h1] at h
  · intro s req_id entry dr emsg s' hl hd hmsg herr hinv
    have h162 : ¬ (s.mode = "historical" ∧
        (162 : ℤ) ∈ ([2103, 2104, 2108, 2157, 2158] : List ℤ)) := by
      rintro ⟨-, hmem⟩
      simp at hmem
    simp [error, h162, hl, hd, hmsg] at herr
    rw [← herr]
    refine ⟨hl, rfl, ?_⟩
    simp [hinv]

def sampleContract : Contract :=
  { symbol := "SPY", secType := "OPT", strike := 100, right := "C" }

def sampleDataReq : DataRequest :=
  { contract := sampleContract, query_time := 600, interval_size := 30,
    bid_or_ask := "ASK", req_id := 100 }

def sampleOptEntry : RegEntry :=
  { secType := "OPT", data_request := some sampleDataReq, strike := none,
    bidOrAsk := none, callOrPut := none, time := 0 }

def emptyChain : option_chain_data :=
  { underline := "SPY", open_spot_price := -1, all_contracts := [],
    all_contracts_fetched := false }

/-- One tracked OPT request, counter in sync with the registry. -/
def c2State : AppState :=
  { req_id_to_contract := [(100, sampleOptEntry)], open_requests := 1,
    sent_time_queue := [], contracts_to_delete := [], chain := emptyChain,
    mode := "historical", shift_hours := 0 }

/-- The text accompanying provider error 162 for an empty result. -/
def noDataMsg : String :=
  "Historical Market Data Service error message:HMDS query returned no data"

def c2StateAfter : AppState :=
  { c2State with contracts_to_delete := [((100 : ℚ), ["C"])], open_requests := 0 }

/-- C2 (counterexample to the claim as stated): a "no data" error for the
tracked request 100 decrements `open_requests` to 0 but leaves the
registry entry in place, so the counter no longer equals the registry
size — the handler does not remove the entry. -/
theorem error_162_keeps_entry :
    error c2State 100 162 noDataMsg = Except.ok c2StateAfter ∧
    c2StateAfter.open_requests = 0 ∧
    c2StateAfter.req_id_to_contract.length = 1 ∧
    alookup c2StateAfter.req_id_to_contract 100 = some sampleOptEntry ∧
    c2StateAfter.open_requests ≠ (c2StateAfter.req_id_to_contract.length : ℤ) := by
  refine ⟨?_, rfl, rfl, rfl, by decide⟩
  rfl

/-- C2 witness: the error-path clause of the amended theorem applied to
the concrete tracked request. -/
theorem counter_registry_sync_paths_witness :
    alookup c2StateAfter.req_id_to_contract 100 = some sampleOptEntry ∧
    c2StateAfter.req_id_to_contract = c2State.req_id_to_contract ∧
    c2StateAfter.open_requests = (c2StateAfter.req_id_to_contract.length : ℤ) - 1 :=
  counter_registry_sync_paths.2.2 c2State 100 sampleOptEntry sampleDataReq
    noDataMsg c2StateAfter rfl rfl rfl rfl rfl

/-! ## Chain pruning from error feedback (`IBapi.remove_contracts`) -/

theorem aremove_sublist {α β : Type} [DecidableEq α] (l : List (α × β)) (k : α) :
    List.Sublist (aremove l k) l := by
  induction l with
  | nil => simp [aremove]
  | cons p rest ih =>
      obtain ⟨k0, v0⟩ := p
      by_cases hk : k = k0
      · simp only [aremove, if_pos hk]
        exact List.sublist_cons_self _ _
      · simp only [aremove, if_neg hk]
        exact List.Sublist.cons₂ _ ih

theorem akeys_aremove_subset {α β : Type} [DecidableEq α]
    {l : List (α × β)} {k x : α} (h : x ∈ akeys (aremove l k)) : x ∈ akeys l :=
  ((aremove_sublist l k).map Prod.fst).subset h

theorem nodup_akeys_aremove {α β : Type} [DecidableEq α]
    {l : List (α × β)} (k : α) (h : (akeys l).Nodup) :
    (akeys (aremove l k)).Nodup :=
  h.sublist ((aremove_sublist l k).map Prod.fst)

theorem not_mem_akeys_aremove_self {α β : Type} [DecidableEq α]
    {l : List (α × β)} {k : α} (h : (akeys l).Nodup) :
    k ∉ akeys (aremove l k) := by
  rw [aremove_of_nodup l k h]
  intro hmem
  simp only [akeys, List.mem_map] at hmem
  obtain ⟨p, hp, hpk⟩ := hmem
  rw [List.mem_filter] at hp
  have := hp.2
  simp only [decide_eq_true_eq] at this
  exact this hpk

theorem fold_aremove_not_mem {α β : Type} [DecidableEq α]
    (dels : List α) (sides : List (α × β)) (d : α) (h : d ∉ akeys sides) :
    d ∉ akeys (dels.foldl aremove sides) := by
  induction dels generalizing sides with
  | nil => exact h
  | cons d0 dels ih =>
      simp only [List.foldl_cons]
      exact ih (aremove sides d0) (fun hm => h (akeys_aremove_subset hm))

theorem fold_aremove_lookup_none {α β : Type} [DecidableEq α]
    (dels : List α) (sides : List (α × β)) (d : α)
    (hn : (akeys sides).Nodup) (hd : d ∈ dels) :
    alookup (dels.foldl aremove sides) d = none := by
  induction dels generalizing sides with
  | nil => simp at hd
  | cons d0 dels ih =>
      simp only [List.foldl_cons]
      by_cases hdd : d = d0
      · subst hdd
        apply alookup_eq_none_of_not_mem
        exact fold_aremove_not_mem dels (aremove sides d) d
          (not_mem_akeys_aremove_self hn)
      · rcases List.mem_cons.mp hd with h | h
        · exact absurd h hdd
        · exact ih (aremove sides d0) (nodup_akeys_aremove d0 hn) h

/-- One entry of `contracts_to_delete` applied to the chain: if the strike
is a live key, delete each queued side that is present; the strike key
itself is left in place even when its side-mapping becomes empty. -/
def applyRemovalsStep (acc : List (ℚ × List (String × Contract)))
    (p : ℚ × List String) : List (ℚ × List (String × Contract)) :=
  match alookup acc p.1 with
  | none => acc
  | some sides => ainsert acc p.1 (p.2.foldl aremove sides)

/-- `IBapi.remove_contracts`: apply every accumulated removal, then clear
`contracts_to_delete`. -/
def remove_contracts (s : AppState) : AppState :=
  { s with chain := { s.chain with all_contracts :=
              s.contracts_to_delete.foldl applyRemovalsStep s.chain.all_contracts },
           contracts_to_delete := [] }

theorem applyRemovalsStep_lookup_ne (acc : List (ℚ × List (String × Contract)))
    (p : ℚ × List String) (st : ℚ) (h : st ≠ p.1) :
    alookup (applyRemovalsStep acc p) st = alookup acc st := by
  unfold applyRemovalsStep
  cases alookup acc p.1 with
  | none => rfl
  | some sides => exact alookup_ainsert_ne acc p.1 st _ h

theorem foldl_applyRemovals_lookup (ctd : List (ℚ × List String))
    (all : List (ℚ × List (String × Contract)))
    (hn : (akeys ctd).Nodup) (st : ℚ) :
    alookup (ctd.foldl applyRemovalsStep all) st =
      match alookup all st, alookup ctd st with
      | none, _ => none
      | some sides, none => some sides
      | some sides, some dels => some (dels.foldl aremove sides) := by
  induction ctd generalizing all with
  | nil =>
      simp only [List.foldl_nil, alookup]
      cases alookup all st <;> rfl
  | cons p rest ih =>
      obtain ⟨k, dels⟩ := p
      rw [akeys_cons, List.nodup_cons] at hn
      simp only [List.foldl_cons]
      rw [ih _ hn.2]
      by_cases hst : st = k
      · subst hst
        have hrest : alookup rest st = none :=
          alookup_eq_none_of_not_mem rest st hn.1
        rw [hrest]
        have hhead : alookup ((st, dels) :: rest) st = some dels := by
          simp [alookup]
        rw [hhead]
        unfold applyRemovalsStep
        cases hall : alookup all st with
        | none => simp [alookup_eq_none_of_not_mem, hall]
        | some sides =>
            simp only []
            rw [alookup_ainsert_self]
      · have hne : alookup ((k, dels) :: rest) st = alookup rest st := by
          simp [alookup, hst]
        rw [hne, applyRemovalsStep_lookup_ne _ _ _ hst]

/-- C3 (amended): `remove_contracts` clears the removal queue and, for each
queued (strike, sides) pair, deletes exactly the queued sides from that
strike's side-mapping — but strike keys are never deleted: a strike whose
queued sides exhaust its mapping remains in `all_contracts` bound to the
empty side-mapping rather than being removed. -/
theorem remove_contracts_spec (s : AppState)
    (hn : (akeys s.contracts_to_delete).Nodup) :
    (remove_contracts s).contracts_to_delete = [] ∧
    (∀ st : ℚ,
      alookup (remove_contracts s).chain.all_contracts st =
        match alookup s.chain.all_contracts st, alookup s.contracts_to_delete st with
        | none, _ => none
        | some sides, none => some sides
        | some sides, some dels => some (dels.foldl aremove sides)) ∧
    (∀ (st : ℚ) (sides : List (String × Contract)),
        alookup s.chain.all_contracts st = some sides →
        ∃ sides', alookup (remove_contracts s).chain.all_contracts st = some sides') ∧
    (∀ (st : ℚ) (sides : List (String × Contract)) (dels : List String) (d : String),
        alookup s.chain.all_contracts st = some sides →
        alookup s.contracts_to_delete st = some dels →
        (akeys sides).Nodup → d ∈ dels →
        alookup (remove_contracts s).chain.all_contracts st =
          some (dels.foldl aremove sides) ∧
        alookup (dels.foldl aremove sides) d = none) := by
  refine ⟨rfl, ?_, ?_, ?_⟩
  · intro st
    exact foldl_applyRemovals_lookup s.contracts_to_delete s.chain.all_contracts hn st
  · intro st sides hall
    have h := foldl_applyRemovals_lookup s.contracts_to_delete s.chain.all_contracts hn st
    rw [hall] at h
    cases hc : alookup s.contracts_to_delete st with
    | none => rw [hc] at h; exact ⟨sides, h⟩
    | some dels => rw [hc] at h; exact ⟨dels.foldl aremove sides, h⟩
  · intro st sides dels d hall hctd hns hd
    have h := foldl_applyRemovals_lookup s.contracts_to_delete s.chain.all_contracts hn st
    rw [hall, hctd] at h
    exact ⟨h, fold_aremove_lookup_none dels sides d hns hd⟩

def samplePutContract : Contract :=
  { symbol := "SPY", secType := "OPT", strike := 100, right := "P" }

/-- Both sides of strike 100 are queued for removal ("no data" arrived for
the call and for the put). -/
def c3State : AppState :=
  { req_id_to_contract := [], open_requests := 0, sent_time_queue := [],
    contracts_to_delete := [((100 : ℚ), ["C", "P"])],
    chain := { underline := "SPY", open_spot_price := 300,
               all_contracts := [((100 : ℚ), [("C", sampleContract), ("P", samplePutContract)])],
               all_contracts_fetched := true },
    mode := "historical", shift_hours := 0 }

/-- C3 (counterexample to the claim as stated): after removing both queued
sides of strike 100, the strike key is still present in `all_contracts`,
mapped to the empty side-mapping — it is not absent as the claim states. -/
theorem remove_contracts_leaves_empty_side_map :
    alookup (remove_contracts c3State).chain.all_contracts 100 = some [] ∧
    (100 : ℚ) ∈ akeys (remove_contracts c3State).chain.all_contracts := by
  exact ⟨rfl, by decide⟩

/-- C3 witness: the amended theorem applied at the two-sided removal. -/
theorem remove_contracts_spec_witness :
    (remove_contracts c3State).contracts_to_delete = [] ∧
    alookup (remove_contracts c3State).chain.all_contracts 100 =
      some (["C", "P"].foldl aremove [("C", sampleContract), ("P", samplePutContract)]) :=
  ⟨(remove_contracts_spec c3State (by decide)).1,
   ((remove_contracts_spec c3State (by decide)).2.1 100).trans rfl⟩

/-! ## ATM pruning (`OPT.keep_close_strikes`)

`sorted(self.option_chain_data.all_contracts.items())` sorts the chain by
strike (keys are unique, so tuple comparison reduces to key comparison);
modelled by insertion sort.  `take_closest` comes from the repository's
`Utils` module, which is not included under src/, so it is modelled from
the spec's words. -/

/-- A row of the option chain: strike with its side-mapping. -/
abbrev StrikeRow : Type := ℚ × List (String × Contract)

def insertSorted (p : StrikeRow) : List StrikeRow → List StrikeRow
  | [] => [p]
  | q :: rest => if p.1 ≤ q.1 then p :: q :: rest else q :: insertSorted p rest

def sortStrikes (l : List StrikeRow) : List StrikeRow := l.foldr insertSorted []

theorem insertSorted_perm (p : StrikeRow) (l : List StrikeRow) :
    List.Perm (insertSorted p l) (p :: l) := by
  induction l with
  | nil => simp [insertSorted]
  | cons q rest ih =>
      by_cases h : p.1 ≤ q.1
      · simp [insertSorted, h]
      · simp only [insertSorted, if_neg h]
        exact (List.Perm.cons q ih).trans (List.Perm.swap p q rest)

theorem sortStrikes_perm (l : List StrikeRow) :
    List.Perm (sortStrikes l) l := by
  induction l with
  | nil => simp [sortStrikes]
  | cons p rest ih =>
      simp only [sortStrikes, List.foldr_cons]
      exact (insertSorted_perm p _).trans (List.Perm.cons p ih)

theorem insertSorted_pairwise (p : StrikeRow) (l : List StrikeRow)
    (h : List.Pairwise (fun a b : StrikeRow => a.1 ≤ b.1) l) :
    List.Pairwise (fun a b : StrikeRow => a.1 ≤ b.1) (insertSorted p l) := by
  induction l with
  | nil => simp [insertSorted]
  | cons q rest ih =>
      rw [List.pairwise_cons] at h
      by_cases hle : p.1 ≤ q.1
      · simp only [insertSorted, if_pos hle]
        rw [List.pairwise_cons]
        refine ⟨?_, List.pairwise_cons.mpr h⟩
        intro r hr
        rcases List.mem_cons.mp hr with h' | h'
        · rw [h']; exact hle
        · exact le_trans hle (h.1 r h')
      · simp only [insertSorted, if_neg hle]
        rw [List.pairwise_cons]
        refine ⟨?_, ih h.2⟩
        intro r hr
        have hr' := (insertSorted_perm p rest).mem_iff.mp hr
        rcases List.mem_cons.mp hr' with h' | h'
        · rw [h']; exact le_of_lt (lt_of_not_le hle)
        · exact h.1 r h'

theorem sortStrikes_pairwise (l : List StrikeRow) :
    List.Pairwise (fun a b : StrikeRow => a.1 ≤ b.1) (sortStrikes l) := by
  induction l with
  | nil => simp [sortStrikes]
  | cons p rest ih =>
      simp only [sortStrikes, List.foldr_cons]
      exact insertSorted_pairwise p _ ih

/-- Modelled from the spec: `take_closest` (imported by `IBApp.py` from the
repository's `Utils` module, which is not present under src/) selects from
a sorted list the value nearest the target, with ties broken toward the
lower value — earlier elements are lower and a later element replaces the
champion only when strictly closer. -/
def take_closest (l : List ℚ) (x : ℚ) : ℚ :=
  match l with
  | [] => 0
  | h :: t => t.foldl (fun best c => if |c - x| < |best - x| then c else best) h

theorem foldl_closest_mem (x : ℚ) (t : List ℚ) (b : ℚ) :
    t.foldl (fun best c => if |c - x| < |best - x| then c else best) b = b ∨
    t.foldl (fun best c => if |c - x| < |best - x| then c else best) b ∈ t := by
  induction t generalizing b with
  | nil => exact Or.inl rfl
  | cons c cs ih =>
      simp only [List.foldl_cons]
      by_cases hc : |c - x| < |b - x|
      · rw [if_pos hc]
        rcases ih c with h | h
        · exact Or.inr (by simp [h])
        · exact Or.inr (List.mem_cons_of_mem c h)
      · rw [if_neg hc]
        rcases ih b with h | h
        · exact Or.inl h
        · exact Or.inr (List.mem_cons_of_mem c h)

theorem take_closest_mem (l : List ℚ) (x : ℚ) (h : l ≠ []) :
    take_closest l x ∈ l := by
  match l with
  | [] => exact absurd rfl h
  | a :: t =>
      rcases foldl_closest_mem x t a with h' | h'
      · rw [take_closest, h']; simp
      · rw [take_closest]
        exact List.mem_cons_of_mem a h'

/-- The marking loop: `if abs(strike - atm)/atm > dist: contracts_to_delete[strike] = []`. -/
def markFar (ks : List ℚ) (atm pct : ℚ) (ctd : List (ℚ × List String)) :
    List (ℚ × List String) :=
  ks.foldl (fun c st => if pct < |st - atm| / atm then ainsert c st [] else c) ctd

theorem markFar_cons (st : ℚ) (rest : List ℚ) (atm pct : ℚ)
    (ctd : List (ℚ × List String)) :
    markFar (st :: rest) atm pct ctd =
      markFar rest atm pct
        (if pct < |st - atm| / atm then ainsert ctd st [] else ctd) := rfl

theorem markFar_eq (ks : List ℚ) (atm pct : ℚ) (ctd : List (ℚ × List String))
    (hn : ks.Nodup) (hfresh : ∀ k ∈ ks, k ∉ akeys ctd) :
    markFar ks atm pct ctd =
      ctd ++ (ks.filter (fun st => decide (pct < |st - atm| / atm))).map
        (fun st => (st, [])) := by
  induction ks generalizing ctd with
  | nil => simp [markFar]
  | cons st rest ih =>
      rw [List.nodup_cons] at hn
      rw [markFar_cons, List.filter_cons]
      by_cases hc : pct < |st - atm| / atm
      · rw [if_pos hc, if_pos (by simpa using hc)]
        have happ := akeys_ainsert_of_not_mem ctd st ([] : List String)
          (hfresh st (List.mem_cons_self st rest))
        rw [happ]
        have hstep : markFar rest atm pct (ctd ++ [(st, [])]) =
            (ctd ++ [(st, [])]) ++ (rest.filter
              (fun s' => decide (pct < |s' - atm| / atm))).map (fun s' => (s', [])) := by
          refine ih _ hn.2 ?_
          intro k hk
          rw [akeys_append]
          simp only [List.mem_append]
          push_neg
          refine ⟨hfresh k (List.mem_cons_of_mem st hk), ?_⟩
          simp only [akeys, List.map]
          intro hcontra
          rw [List.mem_singleton] at hcontra
          exact hn.1 (hcontra ▸ hk)
        rw [hstep, List.append_assoc]
        rfl
      · rw [if_neg hc, if_neg (by simpa using hc)]
        exact ih ctd hn.2 (fun k hk => hfresh k (List.mem_cons_of_mem st hk))

theorem alookup_isSome_of_mem {α β : Type} [DecidableEq α]
    {l : List (α × β)} {k : α} (h : k ∈ akeys l) : (alookup l k).isSome := by
  induction l with
  | nil => simp at h
  | cons p rest ih =>
      obtain ⟨k0, v0⟩ := p
      by_cases hk : k = k0
      · simp [alookup, hk]
      · rw [akeys_cons, List.mem_cons] at h
        rcases h with h | h
        · exact absurd h hk
        · simpa [alookup, hk] using ih h

theorem akeys_filter_key {β : Type} (l : List (ℚ × β)) (g : ℚ → Bool) :
    akeys (l.filter (fun p => g p.1)) = (akeys l).filter g := by
  induction l with
  | nil => simp
  | cons p rest ih =>
      obtain ⟨k0, v0⟩ := p
      by_cases hg : g k0 <;> simp [List.filter_cons, hg, ih]

/-- `for strike in contracts_to_delete: del all_contracts[strike]` — `del`
raises `KeyError` when the strike is missing. -/
def delAll : List ℚ → List StrikeRow → Option (List StrikeRow)
  | [], l => some l
  | k :: ks, l =>
      if (alookup l k).isSome then delAll ks (aremove l k) else none

theorem delAll_eq (ks : List ℚ) (l : List StrikeRow)
    (hl : (akeys l).Nodup) (hks : ks.Nodup) (hsub : ∀ k ∈ ks, k ∈ akeys l) :
    delAll ks l = some (l.filter (fun p => decide (p.1 ∉ ks))) := by
  induction ks generalizing l with
  | nil =>
      simp only [delAll]
      congr 1
      have : ∀ p ∈ l, decide (p.1 ∉ ([] : List ℚ)) = true := by simp
      exact (List.filter_eq_self.mpr this).symm
  | cons k ks ih =>
      rw [List.nodup_cons] at hks
      have hkmem : k ∈ akeys l := hsub k (List.mem_cons_self k ks)
      simp only [delAll, if_pos (alookup_isSome_of_mem hkmem)]
      rw [aremove_of_nodup l k hl]
      have hkeysf := akeys_filter_key l (fun a => decide (a ≠ k))
      have hl' : (akeys (l.filter (fun p => decide (p.1 ≠ k)))).Nodup := by
        rw [hkeysf]
        exact hl.filter _
      have hsub' : ∀ x ∈ ks, x ∈ akeys (l.filter (fun p => decide (p.1 ≠ k))) := by
        intro x hx
        rw [hkeysf, List.mem_filter]
        exact ⟨hsub x (List.mem_cons_of_mem k hx),
          by simp only [decide_eq_true_eq]; exact fun hc => hks.1 (hc ▸ hx)⟩
      rw [ih _ hl' hks.2 hsub']
      congr 1
      rw [List.filter_filter]
      apply List.filter_congr
      intro p _
      by_cases h1 : p.1 = k <;> by_cases h2 : p.1 ∈ ks <;> simp [h1, h2]

/-- The chain sorted ascending by strike
(`OrderedDict(sorted(self.option_chain_data.all_contracts.items()))`). -/
def chainSorted (s : AppState) : List StrikeRow := sortStrikes s.chain.all_contracts

/-- The ATM anchor strike
(`take_closest(list(all_contracts.keys()), open_spot_price)`). -/
def atmStrike (s : AppState) : ℚ :=
  take_closest (akeys (chainSorted s)) s.chain.open_spot_price

/-- `OPT.keep_close_strikes`: sort the chain by strike, compute the ATM
anchor with `take_closest`, mark every strike whose relative distance from
the anchor exceeds the band into `contracts_to_delete`, delete every marked
strike (`del` raises when a marked strike is absent), clear the queue. -/
def keep_close_strikes (s : AppState) (dist_from_atm : ℚ) : Except String AppState :=
  match delAll (akeys (markFar (akeys (chainSorted s)) (atmStrike s) dist_from_atm
      s.contracts_to_delete)) (chainSorted s) with
  | none => Except.error "KeyError"
  | some all' =>
      Except.ok { s with chain := { s.chain with all_contracts := all' },
                         contracts_to_delete := [] }

/-- The chain rows `keep_close_strikes` retains: those within the band. -/
def pruneResult (s : AppState) (pct : ℚ) : List StrikeRow :=
  (chainSorted s).filter
    (fun p => decide (|p.1 - atmStrike s| ≤ pct * atmStrike s))

/-- The state `keep_close_strikes` leaves behind on the success path. -/
def pruneState (s : AppState) (pct : ℚ) : AppState :=
  { s with chain := { s.chain with all_contracts := pruneResult s pct },
           contracts_to_delete := [] }

/-- C4: on a non-empty chain with unique positive strikes, non-empty side
sets and an empty removal queue (the state `get_all_needed_contracts`
establishes), ATM pruning succeeds and keeps exactly the strikes whose
absolute distance from the `take_closest` anchor is at most `pct` times the
anchor, with side-mappings untouched, no empty side set, and the surviving
strikes strictly ascending. -/
theorem keep_close_strikes_correct (s : AppState) (pct : ℚ)
    (hne : s.chain.all_contracts ≠ [])
    (hctd : s.contracts_to_delete = [])
    (hnodup : (akeys s.chain.all_contracts).Nodup)
    (hpos : ∀ p ∈ s.chain.all_contracts, 0 < p.1)
    (hsides : ∀ p ∈ s.chain.all_contracts, p.2 ≠ []) :
    ∃ s', keep_close_strikes s pct = Except.ok s' ∧
      s'.chain.all_contracts = pruneResult s pct ∧
      (∀ p ∈ chainSorted s,
        (p ∈ s'.chain.all_contracts ↔ |p.1 - atmStrike s| ≤ pct * atmStrike s)) ∧
      List.Pairwise (fun a b : ℚ => a < b) (akeys s'.chain.all_contracts) ∧
      (∀ p ∈ s'.chain.all_contracts, p.2 ≠ []) ∧
      s'.contracts_to_delete = [] := by
  have hperm := sortStrikes_perm s.chain.all_contracts
  have hnods : (akeys (chainSorted s)).Nodup :=
    ((hperm.map Prod.fst).nodup_iff).mpr hnodup
  have hposs : ∀ p ∈ chainSorted s, 0 < p.1 :=
    fun p hp => hpos p (hperm.mem_iff.mp hp)
  have hsidess : ∀ p ∈ chainSorted s, p.2 ≠ [] :=
    fun p hp => hsides p (hperm.mem_iff.mp hp)
  have hne' : chainSorted s ≠ [] := by
    intro h
    apply hne
    have hs0 : sortStrikes s.chain.all_contracts = [] := h
    have hlen := hperm.length_eq
    rw [hs0] at hlen
    exact List.length_eq_zero.mp hlen.symm
  have hkeysne : akeys (chainSorted s) ≠ [] := by
    intro h
    exact hne' (List.map_eq_nil_iff.mp h)
  have hatm_mem : atmStrike s ∈ akeys (chainSorted s) :=
    take_closest_mem _ _ hkeysne
  obtain ⟨pa, hpa, hpafst⟩ := List.mem_map.mp hatm_mem
  have hatm_pos : 0 < atmStrike s := hpafst ▸ hposs pa hpa
  have hmark : markFar (akeys (chainSorted s)) (atmStrike s) pct s.contracts_to_delete
      = ((akeys (chainSorted s)).filter
          (fun st => decide (pct < |st - atmStrike s| / atmStrike s))).map
          (fun st => (st, ([] : List String))) := by
    rw [hctd, markFar_eq _ _ _ _ hnods (fun k hk => by simp)]
    simp
  have hkeysM : akeys (((akeys (chainSorted s)).filter
      (fun st => decide (pct < |st - atmStrike s| / atmStrike s))).map
      (fun st => (st, ([] : List String)))) =
      (akeys (chainSorted s)).filter
        (fun st => decide (pct < |st - atmStrike s| / atmStrike s)) := by
    simp only [akeys, List.map_map]
    have hcomp : (Prod.fst ∘ fun st : ℚ => (st, ([] : List String))) =
        fun st : ℚ => st := rfl
    rw [hcomp, List.map_id']
  have hMnodup : ((akeys (chainSorted s)).filter
      (fun st => decide (pct < |st - atmStrike s| / atmStrike s))).Nodup :=
    hnods.filter _
  have hMsub : ∀ k ∈ (akeys (chainSorted s)).filter
      (fun st => decide (pct < |st - atmStrike s| / atmStrike s)),
      k ∈ akeys (chainSorted s) :=
    fun k hk => (List.mem_filter.mp hk).1
  have hdel := delAll_eq _ (chainSorted s) hnods hMnodup hMsub
  have hfc : (chainSorted s).filter
      (fun p => decide (p.1 ∉ (akeys (chainSorted s)).filter
        (fun st => decide (pct < |st - atmStrike s| / atmStrike s)))) =
      pruneResult s pct := by
    unfold pruneResult
    apply List.filter_congr
    intro p hp
    have hpk : p.1 ∈ akeys (chainSorted s) := List.mem_map_of_mem Prod.fst hp
    have hiff : (p.1 ∉ (akeys (chainSorted s)).filter
        (fun st => decide (pct < |st - atmStrike s| / atmStrike s))) ↔
        (|p.1 - atmStrike s| ≤ pct * atmStrike s) := by
      rw [List.mem_filter]
      simp only [decide_eq_true_eq]
      constructor
      · intro h
        have hnlt : ¬ pct < |p.1 - atmStrike s| / atmStrike s :=
          fun hc => h ⟨hpk, hc⟩
        rw [not_lt] at hnlt
        exact (div_le_iff₀ hatm_pos).mp hnlt
      · intro h hc
        have h2 : |p.1 - atmStrike s| / atmStrike s ≤ pct :=
          (div_le_iff₀ hatm_pos).mpr h
        exact absurd hc.2 (not_lt.mpr h2)
    rw [decide_eq_decide]
    exact hiff
  refine ⟨pruneState s pct, ?_, rfl, ?_, ?_, ?_, rfl⟩
  · show keep_close_strikes s pct = _
    unfold keep_close_strikes pruneState
    rw [hmark, hkeysM, hdel, hfc]
  · intro p hp
    show p ∈ pruneResult s pct ↔ _
    unfold pruneResult
    rw [List.mem_filter]
    simp only [decide_eq_true_eq]
    constructor
    · exact fun h => h.2
    · exact fun h => ⟨hp, h⟩
  · have hpairs : List.Pairwise (fun a b : StrikeRow => a.1 ≤ b.1) (chainSorted s) :=
      sortStrikes_pairwise s.chain.all_contracts
    have hsubl : List.Sublist (pruneResult s pct) (chainSorted s) :=
      List.filter_sublist _
    have hpairf := hpairs.sublist hsubl
    have hkeypair : List.Pairwise (fun a b : ℚ => a ≤ b) (akeys (pruneState s pct).chain.all_contracts) :=
      List.pairwise_map.mpr hpairf
    have hkeynd : (akeys (pruneState s pct).chain.all_contracts).Nodup :=
      hnods.sublist (hsubl.map Prod.fst)
    exact (hkeypair.and hkeynd).imp (fun h => lt_of_le_of_ne h.1 h.2)
  · intro p hp
    have hp' : p ∈ pruneResult s pct := hp
    exact hsidess p (List.mem_of_mem_filter hp')

def c4Contract110C : Contract :=
  { symbol := "SPY", secType := "OPT", strike := 110, right := "C" }

/-- The spec's pruning scenario: strikes 100 (call and put) and 110 (call),
reference price 101, band 5%. -/
def c4State : AppState :=
  { req_id_to_contract := [], open_requests := 0, sent_time_queue := [],
    contracts_to_delete := [],
    chain := { underline := "SPY", open_spot_price := 101,
               all_contracts :=
                 [((100 : ℚ), [("C", sampleContract), ("P", samplePutContract)]),
                  ((110 : ℚ), [("C", c4Contract110C)])],
               all_contracts_fetched := true },
    mode := "historical", shift_hours := 0 }

/-- C4 witness: the theorem applied to the spec's scenario (anchor 100,
strike 110 is 10% away and is pruned). -/
theorem keep_close_strikes_correct_witness :
    ∃ s', keep_close_strikes c4State (1/20) = Except.ok s' ∧
      s'.chain.all_contracts = pruneResult c4State (1/20) ∧
      (∀ p ∈ chainSorted c4State,
        (p ∈ s'.chain.all_contracts ↔
          |p.1 - atmStrike c4State| ≤ (1/20) * atmStrike c4State)) ∧
      List.Pairwise (fun a b : ℚ => a < b) (akeys s'.chain.all_contracts) ∧
      (∀ p ∈ s'.chain.all_contracts, p.2 ≠ []) ∧
      s'.contracts_to_delete = [] :=
  keep_close_strikes_correct c4State (1/20) (by simp [c4State]) rfl (by decide)
    (by decide) (by simp [c4State])

/-! ## Session buckets (`getHistoricalData.py`, `get_times_and_interval` and
the orchestrator loop of `main`)

Times are minutes.  `date` is the day's midnight, `start_time`/`end_time`
the session bounds as minutes-of-day.  The `while` loop walking `tmp`
backward terminates only for a positive interval, so the guard carries
`0 < request_interval` (with interval 0 the Python loop spins forever). -/

def walkBack (start_time request_interval tmp : ℕ) : ℕ :=
  if _hgo : 0 < request_interval ∧ start_time + request_interval < tmp then
    walkBack start_time request_interval (tmp - request_interval)
  else tmp
termination_by tmp
decreasing_by omega

/-- `get_times_and_interval`: returns (session close plus the 5-minute
grace, the first bucket's length, the first bucket's end time). -/
def get_times_and_interval (start_time end_time date request_interval : ℕ) :
    ℕ × ℕ × ℕ :=
  (date + end_time + 5,
   walkBack (date + start_time) request_interval (date + end_time) -
     (date + start_time),
   walkBack (date + start_time) request_interval (date + end_time))

/-- The orchestrator loop `while query_time < end_time:` in `main`: each
iteration issues requests for the bucket ending at `query_time` with span
`sz`, then resets the span to the configured interval and steps forward. -/
def bucketSeq (query_time end_t sz request_interval : ℕ) : List (ℕ × ℕ) :=
  if _hgo : query_time < end_t ∧ 0 < request_interval then
    (query_time, sz) ::
      bucketSeq (query_time + request_interval) end_t request_interval request_interval
  else []
termination_by end_t - query_time
decreasing_by omega

theorem walkBack_gt (s I : ℕ) : ∀ t, s < t → s < walkBack s I t := by
  intro t
  induction t using Nat.strong_induction_on with
  | _ t ih =>
      intro hst
      rw [walkBack]
      split
      · next h => exact ih (t - I) (by omega) (by omega)
      · exact hst

theorem walkBack_le_tmp (s I : ℕ) : ∀ t, walkBack s I t ≤ t := by
  intro t
  induction t using Nat.strong_induction_on with
  | _ t ih =>
      rw [walkBack]
      split
      · next hcond => exact le_trans (ih (t - I) (by omega)) (by omega)
      · exact le_refl t

theorem walkBack_le_start_add (s I : ℕ) (hI : 0 < I) :
    ∀ t, walkBack s I t ≤ s + I := by
  intro t
  induction t using Nat.strong_induction_on with
  | _ t ih =>
      rw [walkBack]
      split
      · next hcond => exact ih (t - I) (by omega)
      · next hcond =>
          push_neg at hcond
          exact hcond hI

theorem walkBack_dvd (s I : ℕ) : ∀ t, I ∣ (t - walkBack s I t) := by
  intro t
  induction t using Nat.strong_induction_on with
  | _ t ih =>
      rw [walkBack]
      split
      · next h =>
          obtain ⟨c, hc⟩ := ih (t - I) (by omega)
          have hle := walkBack_le_tmp s I (t - I)
          refine ⟨c + 1, ?_⟩
          have hsplit : t - walkBack s I (t - I) =
              (t - I - walkBack s I (t - I)) + I := by omega
          rw [hsplit, hc]
          ring
      · exact ⟨0, by omega⟩

theorem bucketSeq_closed_form (e I : ℕ) (hI : 0 < I) :
    ∀ (n q sz : ℕ), e - q ≤ n → q < e →
    bucketSeq q e sz I = (List.range ((e - q - 1) / I + 1)).map
      (fun j => (q + j * I, if j = 0 then sz else I)) := by
  intro n
  induction n with
  | zero => intro q sz hle hlt; omega
  | succ n ih =>
      intro q sz hle hlt
      rw [bucketSeq, dif_pos ⟨hlt, hI⟩]
      by_cases hq2 : q + I < e
      · rw [ih (q + I) I (by omega) hq2]
        have h1 : e - q - 1 = (e - (q + I) - 1) + I := by omega
        have hcount : (e - q - 1) / I + 1 = ((e - (q + I) - 1) / I + 1) + 1 := by
          rw [h1, Nat.add_div_right _ hI]
        conv_rhs => rw [hcount, List.range_succ_eq_map, List.map_cons]
        congr 1
        · simp
        · rw [List.map_map]
          apply List.map_congr_left
          intro j hj
          simp only [Function.comp, Prod.mk.injEq, Nat.succ_eq_add_one]
          refine ⟨by ring, by simp⟩
      · have hstop : bucketSeq (q + I) e I I = [] := by
          rw [bucketSeq, dif_neg]
          intro hc
          exact hq2 hc.1
        have hcount : (e - q - 1) / I = 0 := Nat.div_eq_of_lt (by omega)
        rw [hstop, hcount, List.range_succ_eq_map]
        simp

/-- C5: for a session with `start < close` and a positive bucket length,
`get_times_and_interval` walks back from session close in full increments
(the distance from close to the first bucket end is a multiple of the
interval) until the remaining span is at most one increment; that remainder
`(start, q0]` becomes the first — possibly shorter — bucket, and the
orchestrator loop then emits buckets of the full configured length at
`q0 + j·I` for as long as they start before close plus the 5-minute
grace. -/
theorem get_times_and_interval_buckets (start_time end_time date request_interval : ℕ)
    (hI : 0 < request_interval) (hlt : start_time < end_time) :
    get_times_and_interval start_time end_time date request_interval =
      (date + end_time + 5,
       walkBack (date + start_time) request_interval (date + end_time) -
         (date + start_time),
       walkBack (date + start_time) request_interval (date + end_time)) ∧
    date + start_time <
      walkBack (date + start_time) request_interval (date + end_time) ∧
    walkBack (date + start_time) request_interval (date + end_time) ≤
      date + start_time + request_interval ∧
    request_interval ∣ (date + end_time -
      walkBack (date + start_time) request_interval (date + end_time)) ∧
    bucketSeq (walkBack (date + start_time) request_interval (date + end_time))
        (date + end_time + 5)
        (walkBack (date + start_time) request_interval (date + end_time) -
          (date + start_time))
        request_interval =
      (List.range ((date + end_time + 5 -
          walkBack (date + start_time) request_interval (date + end_time) - 1) /
            request_interval + 1)).map
        (fun j => (walkBack (date + start_time) request_interval (date + end_time) +
            j * request_interval,
          if j = 0 then
            walkBack (date + start_time) request_interval (date + end_time) -
              (date + start_time)
          else request_interval)) := by
  have hq_lt : walkBack (date + start_time) request_interval (date + end_time) <
      date + end_time + 5 :=
    lt_of_le_of_lt (walkBack_le_tmp _ _ _) (by omega)
  refine ⟨rfl, walkBack_gt _ _ _ (by omega), walkBack_le_start_add _ _ hI _,
    walkBack_dvd _ _ _, ?_⟩
  exact bucketSeq_closed_form (date + end_time + 5) request_interval hI
    (date + end_time + 5 -
      walkBack (date + start_time) request_interval (date + end_time)) _ _
    (le_refl _) hq_lt

/-- C5 witness: the spec's example — 09:30–16:00 session (minutes 570 and
960), 60-minute buckets: the first bucket ends at 10:00 (minute 600) and
spans 30 minutes, and the emitted bucket ends are 10:00, 11:00, …, 16:00. -/
theorem get_times_and_interval_buckets_witness :
    ((0 : ℕ) < 60 ∧ (570 : ℕ) < 960) ∧
    (get_times_and_interval 570 960 0 60 =
      (0 + 960 + 5, walkBack (0 + 570) 60 (0 + 960) - (0 + 570),
        walkBack (0 + 570) 60 (0 + 960)) ∧
     0 + 570 < walkBack (0 + 570) 60 (0 + 960) ∧
     walkBack (0 + 570) 60 (0 + 960) ≤ 0 + 570 + 60 ∧
     60 ∣ (0 + 960 - walkBack (0 + 570) 60 (0 + 960)) ∧
     bucketSeq (walkBack (0 + 570) 60 (0 + 960)) (0 + 960 + 5)
         (walkBack (0 + 570) 60 (0 + 960) - (0 + 570)) 60 =
       (List.range ((0 + 960 + 5 - walkBack (0 + 570) 60 (0 + 960) - 1) / 60 + 1)).map
         (fun j => (walkBack (0 + 570) 60 (0 + 960) + j * 60,
           if j = 0 then walkBack (0 + 570) 60 (0 + 960) - (0 + 570) else 60))) ∧
    walkBack 570 60 960 = 600 ∧
    bucketSeq 600 965 30 60 =
      [(600, 30), (660, 60), (720, 60), (780, 60), (840, 60), (900, 60), (960, 60)] := by
  have h600 : walkBack 570 60 960 = 600 := by
    have h1 : 570 < walkBack 570 60 960 := walkBack_gt 570 60 960 (by omega)
    have h2 : walkBack 570 60 960 ≤ 570 + 60 := walkBack_le_start_add 570 60 (by omega) 960
    have h3 : 60 ∣ (960 - walkBack 570 60 960) := walkBack_dvd 570 60 960
    have h4 : walkBack 570 60 960 ≤ 960 := walkBack_le_tmp 570 60 960
    obtain ⟨c, hc⟩ := h3
    omega
  refine ⟨⟨by decide, by decide⟩,
    get_times_and_interval_buckets 570 960 0 60 (by decide) (by decide), h600, ?_⟩
  have hb := bucketSeq_closed_form 965 60 (by omega) 365 600 30 (by omega) (by omega)
  rw [hb]
  rfl

/-! ## Bar-data handlers (`OPT.historicalData`, `FX.historicalData`) and
the reference-price wait loop (`OPT.get_underline_open_price`) -/

/-- The record `OPT.historicalData` formats and hands to `write_to_file`. -/
structure OutRecord where
  dateHour : ℕ
  dateMinsec : ℕ
  strike : ℚ
  right : String
  bid_or_ask : String
  bopen : ℚ
  bhigh : ℚ
  blow : ℚ
  bclose : ℚ

/-- The record the `STK`/`FX` handlers format (no strike or side column). -/
structure FxRecord where
  dateHour : ℕ
  dateMinsec : ℕ
  bid_or_ask : String
  bopen : ℚ
  bhigh : ℚ
  blow : ℚ
  bclose : ℚ

/-- `IBapi.historicalData` (the base class): shift the bar's hour by
`shift_hours`; `datetime.replace` raises when the hour goes negative. -/
def shiftBar (shift : ℕ) (bar : Bar) : Except String Bar :=
  if shift ≤ bar.hour then Except.ok { bar with hour := bar.hour - shift }
  else Except.error "ValueError: hour out of range"

/-- `OPT.historicalData`: a bar for the reference-price pseudo-request
overwrites `open_spot_price` and writes nothing; a bar for a tracked
request formats a record (reading `entry["data_request"]`); anything else
raises. -/
def OPT_historicalData (s : AppState) (req_id : ℕ) (bar : Bar) :
    Except String (AppState × Option OutRecord) :=
  match shiftBar s.shift_hours bar with
  | Except.error e => Except.error e
  | Except.ok bar' =>
      if req_id = OPEN_SPOT_PRICE_REQ_ID then
        Except.ok ({ s with chain :=
          { s.chain with open_spot_price := bar'.bclose } }, none)
      else
        match alookup s.req_id_to_contract req_id with
        | some entry =>
            match entry.data_request with
            | none => Except.error "KeyError: data_request"
            | some dr =>
                let rec0 : OutRecord :=
                  { dateHour := bar'.hour, dateMinsec := bar'.minsec,
                    strike := dr.contract.strike, right := dr.contract.right,
                    bid_or_ask := if dr.bid_or_ask = "ASK" then "S" else "B",
                    bopen := bar'.bopen, bhigh := bar'.bhigh, blow := bar'.blow,
                    bclose := bar'.bclose }
                Except.ok (s, some rec0)
        | none => Except.error "Unknown req_id!!!"

/-- The wait loop of `OPT.get_underline_open_price`:
`while open_spot_price == -1: time.sleep(1)`, interleaved with the bars the
response thread delivers for the pseudo-request; `none` when the script
ends with the sentinel still in place (the Python loop would still spin). -/
def spotWait : List Bar → AppState → Option AppState
  | [], s => if s.chain.open_spot_price = -1 then none else some s
  | b :: rest, s =>
      if s.chain.open_spot_price = -1 then
        match OPT_historicalData s OPEN_SPOT_PRICE_REQ_ID b with
        | Except.ok (s', _) => spotWait rest s'
        | Except.error _ => none
      else some s

/-- C7 (amended): the wait loop never returns while the reference price
still holds the sentinel −1; and every bar for the reference-price
pseudo-request overwrites `open_spot_price` with its own close — the last
value wins, not the first — producing no output record, so a later read
observes the most recent delivered close. -/
theorem spot_price_wait_and_overwrite :
    (∀ (bars : List Bar) (s s' : AppState),
        spotWait bars s = some s' → s'.chain.open_spot_price ≠ -1) ∧
    (∀ (s : AppState) (b : Bar) (s' : AppState) (out : Option OutRecord),
        s.shift_hours ≤ b.hour →
        OPT_historicalData s OPEN_SPOT_PRICE_REQ_ID b = Except.ok (s', out) →
        s'.chain.open_spot_price = b.bclose ∧ out = none) := by
  constructor
  · intro bars
    induction bars with
    | nil =>
        intro s s' h
        by_cases hc : s.chain.open_spot_price = -1
        · simp [spotWait, hc] at h
        · simp [spotWait, hc] at h
          rw [← h]
          exact hc
    | cons b rest ih =>
        intro s s' h
        by_cases hc : s.chain.open_spot_price = -1
        · simp only [spotWait, if_pos hc] at h
          cases hh : OPT_historicalData s OPEN_SPOT_PRICE_REQ_ID b with
          | error e => rw [hh] at h; exact absurd h (by simp)
          | ok p =>
              obtain ⟨s1, out⟩ := p
              rw [hh] at h
              exact ih s1 s' h
        · simp [spotWait, hc] at h
          rw [← h]
          exact hc
  · intro s b s' out hshift h
    simp [OPT_historicalData, shiftBar, if_pos hshift] at h
    obtain ⟨h1, h2⟩ := h
    constructor
    · rw [← h1]
    · exact h2.symm

/-- Sentinel state before the reference price has arrived. -/
def c7State : AppState :=
  { req_id_to_contract := [], open_requests := 0, sent_time_queue := [],
    contracts_to_delete := [], chain := emptyChain,
    mode := "historical", shift_hours := 0 }

def c7Bar1 : Bar :=
  { hour := 9, minsec := 3000, bopen := 5, bhigh := 5, blow := 5, bclose := 5 }

def c7Bar2 : Bar :=
  { hour := 9, minsec := 3100, bopen := 7, bhigh := 7, blow := 7, bclose := 7 }

def c7State1 : AppState :=
  { c7State with chain := { c7State.chain with open_spot_price := 5 } }

def c7State2 : AppState :=
  { c7State with chain := { c7State.chain with open_spot_price := 7 } }

/-- C7 (counterexample to the claim as stated): a second bar for the
reference-price pseudo-request overwrites the stored price — the stored
value after bars closing at 5 and then 7 is 7, not the first value 5. -/
theorem spot_price_first_value_loses :
    OPT_historicalData c7State OPEN_SPOT_PRICE_REQ_ID c7Bar1 =
      Except.ok (c7State1, none) ∧
    OPT_historicalData c7State1 OPEN_SPOT_PRICE_REQ_ID c7Bar2 =
      Except.ok (c7State2, none) ∧
    c7Bar1.bclose = 5 ∧
    c7State2.chain.open_spot_price = 7 ∧
    c7State2.chain.open_spot_price ≠ c7Bar1.bclose :=
  ⟨rfl, rfl, rfl, rfl, by decide⟩

/-- C7 witness: both clauses of the amended theorem at a concrete run. -/
theorem spot_price_wait_and_overwrite_witness :
    c7State1.chain.open_spot_price ≠ -1 ∧
    (c7State1.chain.open_spot_price = c7Bar1.bclose ∧
      (none : Option OutRecord) = none) :=
  ⟨spot_price_wait_and_overwrite.1 [c7Bar1, c7Bar2] c7State c7State1 rfl,
   spot_price_wait_and_overwrite.2 c7State c7Bar1 c7State1 none (by decide) rfl⟩

/-! ## End-of-stream routing (`IBapi.historicalDataEnd`) and the FX
variant's registry entries -/

def isOk {ε α : Type} : Except ε α → Bool
  | Except.ok _ => true
  | Except.error _ => false

theorem mem_of_alookup {α β : Type} [DecidableEq α]
    {l : List (α × β)} {k : α} {v : β} (h : alookup l k = some v) : (k, v) ∈ l := by
  induction l with
  | nil => simp [alookup] at h
  | cons p rest ih =>
      obtain ⟨k0, v0⟩ := p
      by_cases hk : k = k0
      · subst hk
        simp [alookup] at h
        simp [h]
      · simp [alookup, hk] at h
        exact List.mem_cons_of_mem _ (ih h)

/-- C6 (amended): when every registry entry carries a `data_request` record
— as every entry registered by the OPT and STK variants does —
`historicalDataEnd` returns normally exactly for ids that are tracked or
equal the reference-price pseudo-id, and raises for every other id.  (The
FX variant registers entries without that record, for which even a tracked
id raises; see the counterexample.) -/
theorem historicalDataEnd_ok_iff (s : AppState) (req_id : ℕ)
    (hdr : ∀ p ∈ s.req_id_to_contract, (p.2.data_request).isSome = true) :
    isOk (historicalDataEnd s req_id) = true ↔
      ((alookup s.req_id_to_contract req_id).isSome = true ∨
        req_id = OPEN_SPOT_PRICE_REQ_ID) := by
  cases hl : alookup s.req_id_to_contract req_id with
  | some entry =>
      have hmem := mem_of_alookup hl
      have hsome := hdr _ hmem
      cases hd : entry.data_request with
      | none => rw [hd] at hsome; simp at hsome
      | some dr =>
          simp [historicalDataEnd, hl, hd, isOk]
  | none =>
      by_cases h1 : req_id = OPEN_SPOT_PRICE_REQ_ID
      · subst h1
        simp [historicalDataEnd, hl, isOk]
      · simp [historicalDataEnd, hl, h1, isOk]

/-- The registry entry `FX.send_historical_data_request` stores: no
`data_request` key. -/
def fxRegEntry (dr : DataRequest) (now : ℕ) : RegEntry :=
  { secType := "FX", data_request := none, strike := some 0,
    bidOrAsk := some dr.bid_or_ask, callOrPut := some "F", time := now }

/-- `FX.send_historical_data_request`: inline `randint` retry loop for a
fresh id, register the FX-shaped entry, then append the send time and
increment the counter. -/
def FX_send_historical_data_request (s : AppState) (dr : DataRequest)
    (draws : List ℕ) (now : ℕ) : Option (AppState × ℕ × List ℕ) :=
  match get_req_id draws (akeys s.req_id_to_contract) with
  | none => none
  | some (rid, rest) =>
      some ({ s with
        req_id_to_contract := ainsert s.req_id_to_contract rid (fxRegEntry dr now),
        sent_time_queue := s.sent_time_queue ++ [now],
        open_requests := s.open_requests + 1 }, rid, rest)

/-- `FX.historicalData`: reads `req_id_to_contract[req_id]["data_request"]`
for a tracked id before formatting the record. -/
def FX_historicalData (s : AppState) (req_id : ℕ) (bar : Bar) :
    Except String (AppState × Option FxRecord) :=
  match shiftBar s.shift_hours bar with
  | Except.error e => Except.error e
  | Except.ok bar' =>
      match alookup s.req_id_to_contract req_id with
      | some entry =>
          match entry.data_request with
          | none => Except.error "KeyError: data_request"
          | some dr =>
              let rec0 : FxRecord :=
                { dateHour := bar'.hour, dateMinsec := bar'.minsec,
                  bid_or_ask := if dr.bid_or_ask = "ASK" then "S" else "B",
                  bopen := bar'.bopen, bhigh := bar'.bhigh, blow := bar'.blow,
                  bclose := bar'.bclose }
              Except.ok (s, some rec0)
      | none => Except.error "Unknown req_id!!!"

/-- C9: an id registered by `FX.send_historical_data_request` remains bound
to an entry without a `data_request` key, so while it is tracked both
`FX.historicalData` and the inherited `historicalDataEnd` fail with a
key-lookup error instead of writing a record or completing the entry. -/
theorem fx_tracked_request_handlers_raise
    (s : AppState) (dr : DataRequest) (draws : List ℕ) (now : ℕ)
    (s' : AppState) (rid : ℕ) (rest : List ℕ) (bar : Bar)
    (hsend : FX_send_historical_data_request s dr draws now = some (s', rid, rest))
    (hshift : s'.shift_hours ≤ bar.hour) :
    alookup s'.req_id_to_contract rid = some (fxRegEntry dr now) ∧
    (fxRegEntry dr now).data_request = none ∧
    FX_historicalData s' rid bar = Except.error "KeyError: data_request" ∧
    historicalDataEnd s' rid = Except.error "KeyError: data_request" ∧
    (∀ (s2 : AppState) (e : RegEntry),
        alookup s2.req_id_to_contract rid = some e → e.data_request = none →
        s2.shift_hours ≤ bar.hour →
        FX_historicalData s2 rid bar = Except.error "KeyError: data_request" ∧
        historicalDataEnd s2 rid = Except.error "KeyError: data_request") := by
  have hgen : ∀ (s2 : AppState) (e : RegEntry),
      alookup s2.req_id_to_contract rid = some e → e.data_request = none →
      s2.shift_hours ≤ bar.hour →
      FX_historicalData s2 rid bar = Except.error "KeyError: data_request" ∧
      historicalDataEnd s2 rid = Except.error "KeyError: data_request" := by
    intro s2 e hl hd hs2
    constructor
    · simp [FX_historicalData, shiftBar, if_pos hs2, hl, hd]
    · simp [historicalDataEnd, hl, hd]
  simp only [FX_send_historical_data_request] at hsend
  cases hg : get_req_id draws (akeys s.req_id_to_contract) with
  | none => rw [hg] at hsend; exact absurd hsend (by simp)
  | some p =>
      obtain ⟨rid0, rest0⟩ := p
      rw [hg] at hsend
      rw [Option.some.injEq, Prod.mk.injEq] at hsend
      obtain ⟨hs, hid⟩ := hsend
      rw [Prod.mk.injEq] at hid
      have hrid : rid0 = rid := hid.1
      have hlook : alookup s'.req_id_to_contract rid = some (fxRegEntry dr now) := by
        rw [← hs]
        simp only []
        rw [← hrid]
        exact alookup_ainsert_self s.req_id_to_contract rid0 (fxRegEntry dr now)
      exact ⟨hlook, rfl, (hgen s' (fxRegEntry dr now) hlook rfl hshift).1,
        (hgen s' (fxRegEntry dr now) hlook rfl hshift).2, hgen⟩

def fxCashContract : Contract :=
  { symbol := "EUR", secType := "CASH", strike := 0, right := "" }

def fxDataReq : DataRequest :=
  { contract := fxCashContract, query_time := 600, interval_size := 60,
    bid_or_ask := "ASK", req_id := -1 }

def fxBaseState : AppState :=
  { req_id_to_contract := [], open_requests := 0, sent_time_queue := [],
    contracts_to_delete := [], chain := emptyChain,
    mode := "historical", shift_hours := 0 }

/-- The state after `FX.send_historical_data_request` drew id 77. -/
def fxTrackedState : AppState :=
  { req_id_to_contract := [(77, fxRegEntry fxDataReq 0)], open_requests := 1,
    sent_time_queue := [0], contracts_to_delete := [], chain := emptyChain,
    mode := "historical", shift_hours := 0 }

def fxBar : Bar :=
  { hour := 9, minsec := 0, bopen := 1, bhigh := 1, blow := 1, bclose := 1 }

/-- C6 (counterexample to the claim as stated): id 77 is present in the
correlation registry (registered by the FX variant), yet
`historicalDataEnd` raises a `KeyError` reading the missing
`data_request` field instead of returning normally. -/
theorem historicalDataEnd_raises_for_tracked_fx :
    (alookup fxTrackedState.req_id_to_contract 77).isSome = true ∧
    historicalDataEnd fxTrackedState 77 = Except.error "KeyError: data_request" :=
  ⟨rfl, rfl⟩

/-- C6 witness: the amended theorem at a registry of OPT entries — a
tracked id completes, the pseudo-id completes, an unknown id raises. -/
theorem historicalDataEnd_ok_iff_witness :
    (isOk (historicalDataEnd c2State 100) = true ↔
      ((alookup c2State.req_id_to_contract 100).isSome = true ∨
        (100 : ℕ) = OPEN_SPOT_PRICE_REQ_ID)) ∧
    (isOk (historicalDataEnd c2State 55) = true ↔
      ((alookup c2State.req_id_to_contract 55).isSome = true ∨
        (55 : ℕ) = OPEN_SPOT_PRICE_REQ_ID)) ∧
    (isOk (historicalDataEnd c2State 1) = true ↔
      ((alookup c2State.req_id_to_contract 1).isSome = true ∨
        (1 : ℕ) = OPEN_SPOT_PRICE_REQ_ID)) :=
  ⟨historicalDataEnd_ok_iff c2State 100 (by decide),
   historicalDataEnd_ok_iff c2State 55 (by decide),
   historicalDataEnd_ok_iff c2State 1 (by decide)⟩

/-- C9 witness: the theorem at the concrete FX registration of id 77. -/
theorem fx_tracked_request_handlers_raise_witness :
    alookup fxTrackedState.req_id_to_contract 77 = some (fxRegEntry fxDataReq 0) ∧
    (fxRegEntry fxDataReq 0).data_request = none ∧
    FX_historicalData fxTrackedState 77 fxBar = Except.error "KeyError: data_request" ∧
    historicalDataEnd fxTrackedState 77 = Except.error "KeyError: data_request" ∧
    (∀ (s2 : AppState) (e : RegEntry),
        alookup s2.req_id_to_contract 77 = some e → e.data_request = none →
        s2.shift_hours ≤ fxBar.hour →
        FX_historicalData s2 77 fxBar = Except.error "KeyError: data_request" ∧
        historicalDataEnd s2 77 = Except.error "KeyError: data_request") :=
  fx_tracked_request_handlers_raise fxBaseState fxDataReq [77] 0
    fxTrackedState 77 [] fxBar rfl (by decide)

/-! ## Correlation-id properties (`get_req_id` and sequences of
registrations with no intervening removals) -/

/-- A run of `OPT.send_historical_data_request` calls with no intervening
completions, threading the shared draw stream; returns the final state and
the ids assigned, in order. -/
def registerSeq : List DataRequest → List ℕ → AppState → ℕ →
    Option (AppState × List ℕ)
  | [], _, s, _ => some (s, [])
  | dr :: drs, draws, s, now =>
      match OPT_send_historical_data_request s dr draws now with
      | none => none
      | some (s1, rid, rest) =>
          match registerSeq drs rest s1 now with
          | none => none
          | some (s2, rids) => some (s2, rid :: rids)

theorem OPT_send_keys {s : AppState} {dr : DataRequest} {draws : List ℕ}
    {now : ℕ} {s' : AppState} {rid : ℕ} {rest : List ℕ}
    (h : OPT_send_historical_data_request s dr draws now = some (s', rid, rest)) :
    rid ∉ akeys s.req_id_to_contract ∧ rid ∈ akeys s'.req_id_to_contract ∧
    (∀ k ∈ akeys s.req_id_to_contract, k ∈ akeys s'.req_id_to_contract) ∧
    (∀ x ∈ rest, x ∈ draws) ∧ rid ∈ draws := by
  simp only [OPT_send_historical_data_request] at h
  cases hg : get_req_id draws (akeys s.req_id_to_contract) with
  | none => rw [hg] at h; exact absurd h (by simp)
  | some p =>
      obtain ⟨rid0, rest0⟩ := p
      rw [hg] at h
      rw [Option.some.injEq, Prod.mk.injEq] at h
      obtain ⟨hs, hid⟩ := h
      rw [Prod.mk.injEq] at hid
      obtain ⟨hrid, hrest⟩ := hid
      subst hrid
      subst hrest
      refine ⟨get_req_id_not_mem hg, ?_, ?_, get_req_id_rest_subset hg,
        get_req_id_mem_draws hg⟩
      · rw [← hs]
        exact self_mem_akeys_ainsert _ _ _
      · intro k hk
        rw [← hs]
        exact mem_akeys_ainsert _ _ _ _ hk

theorem registerSeq_fresh :
    ∀ (drs : List DataRequest) (draws : List ℕ) (s : AppState) (now : ℕ)
      (s' : AppState) (rids : List ℕ),
      registerSeq drs draws s now = some (s', rids) →
      ∀ r ∈ rids, r ∉ akeys s.req_id_to_contract ∧ r ∈ draws := by
  intro drs
  induction drs with
  | nil =>
      intro draws s now s' rids h r hr
      simp [registerSeq] at h
      rw [h.2] at hr
      simp at hr
  | cons dr drs ih =>
      intro draws s now s' rids h r hr
      cases hsend : OPT_send_historical_data_request s dr draws now with
      | none =>
          simp only [registerSeq, hsend] at h
          exact absurd h (by simp)
      | some p =>
          obtain ⟨s1, rid, rest⟩ := p
          simp only [registerSeq, hsend] at h
          cases htail : registerSeq drs rest s1 now with
          | none =>
              simp only [htail] at h
              exact absurd h (by simp)
          | some q =>
              obtain ⟨s2, rids2⟩ := q
              simp only [htail, Option.some.injEq, Prod.mk.injEq] at h
              obtain ⟨-, hrids⟩ := h
              rw [← hrids] at hr
              obtain ⟨hfresh, -, hgrow, hrsub, hrdraw⟩ := OPT_send_keys hsend
              rcases List.mem_cons.mp hr with hhd | htl
              · subst hhd
                exact ⟨hfresh, hrdraw⟩
              · obtain ⟨hnot1, hin1⟩ := ih rest s1 now s2 rids2 htail r htl
                exact ⟨fun hc => hnot1 (hgrow r hc), hrsub r hin1⟩

theorem registerSeq_nodup :
    ∀ (drs : List DataRequest) (draws : List ℕ) (s : AppState) (now : ℕ)
      (s' : AppState) (rids : List ℕ),
      registerSeq drs draws s now = some (s', rids) → rids.Nodup := by
  intro drs
  induction drs with
  | nil =>
      intro draws s now s' rids h
      simp [registerSeq] at h
      rw [h.2]
      exact List.nodup_nil
  | cons dr drs ih =>
      intro draws s now s' rids h
      cases hsend : OPT_send_historical_data_request s dr draws now with
      | none =>
          simp only [registerSeq, hsend] at h
          exact absurd h (by simp)
      | some p =>
          obtain ⟨s1, rid, rest⟩ := p
          simp only [registerSeq, hsend] at h
          cases htail : registerSeq drs rest s1 now with
          | none =>
              simp only [htail] at h
              exact absurd h (by simp)
          | some q =>
              obtain ⟨s2, rids2⟩ := q
              simp only [htail, Option.some.injEq, Prod.mk.injEq] at h
              obtain ⟨-, hrids⟩ := h
              rw [← hrids]
              rw [List.nodup_cons]
              refine ⟨?_, ih rest s1 now s2 rids2 htail⟩
              intro hc
              obtain ⟨hnot, -⟩ := registerSeq_fresh drs rest s1 now s2 rids2 htail rid hc
              exact hnot (OPT_send_keys hsend).2.1

/-- C10: a correlation id drawn by `get_req_id` lies in the `randint`
space `[10, 99999]` and avoids every id in the used set — in particular it
can never equal the reserved pseudo-ids 1 and 2 — and across any sequence
of registrations with no intervening removals the assigned ids are
pairwise distinct and all satisfy the same bounds. -/
theorem get_req_id_correct
    (draws used rest : List ℕ) (rid : ℕ) (drs : List DataRequest)
    (s : AppState) (now : ℕ) (s' : AppState) (rids : List ℕ)
    (hdraws : ∀ d ∈ draws, 10 ≤ d ∧ d ≤ 99999) :
    (get_req_id draws used = some (rid, rest) →
      10 ≤ rid ∧ rid ≤ 99999 ∧ rid ∉ used ∧
      rid ≠ OPEN_SPOT_PRICE_REQ_ID ∧ rid ≠ ALL_OPTION_CONTRACTS_DETAILS_REQ_ID) ∧
    (registerSeq drs draws s now = some (s', rids) →
      rids.Nodup ∧ ∀ r ∈ rids, 10 ≤ r ∧ r ≤ 99999 ∧
        r ≠ OPEN_SPOT_PRICE_REQ_ID ∧ r ≠ ALL_OPTION_CONTRACTS_DETAILS_REQ_ID) := by
  constructor
  · intro h
    obtain ⟨h10, h99⟩ := hdraws rid (get_req_id_mem_draws h)
    refine ⟨h10, h99, get_req_id_not_mem h, ?_, ?_⟩
    · intro hc
      rw [hc] at h10
      simp [OPEN_SPOT_PRICE_REQ_ID] at h10
    · intro hc
      rw [hc] at h10
      simp [ALL_OPTION_CONTRACTS_DETAILS_REQ_ID] at h10
  · intro h
    refine ⟨registerSeq_nodup drs draws s now s' rids h, ?_⟩
    intro r hr
    obtain ⟨-, hrdraw⟩ := registerSeq_fresh drs draws s now s' rids h r hr
    obtain ⟨h10, h99⟩ := hdraws r hrdraw
    refine ⟨h10, h99, ?_, ?_⟩
    · intro hc
      rw [hc] at h10
      simp [OPEN_SPOT_PRICE_REQ_ID] at h10
    · intro hc
      rw [hc] at h10
      simp [ALL_OPTION_CONTRACTS_DETAILS_REQ_ID] at h10

def c10Base : AppState :=
  { req_id_to_contract := [], open_requests := 0, sent_time_queue := [],
    contracts_to_delete := [], chain := emptyChain,
    mode := "historical", shift_hours := 0 }

def c10Entry (rid : ℕ) : RegEntry :=
  { secType := "OPT", data_request := some { sampleDataReq with req_id := (rid : ℤ) },
    strike := none, bidOrAsk := none, callOrPut := none, time := 0 }

def c10Final : AppState :=
  { c10Base with
      req_id_to_contract := [(15, c10Entry 15), (23, c10Entry 23)],
      open_requests := 2,
      sent_time_queue := [0, 0] }

/-- C10 witness: draw stream [15, 15, 23] — `get_req_id` skips the used
draw, and two registrations yield the distinct in-range ids 15 and 23. -/
theorem get_req_id_correct_witness :
    (10 ≤ 15 ∧ 15 ≤ 99999 ∧ (15 : ℕ) ∉ ([7] : List ℕ) ∧
      (15 : ℕ) ≠ OPEN_SPOT_PRICE_REQ_ID ∧
      (15 : ℕ) ≠ ALL_OPTION_CONTRACTS_DETAILS_REQ_ID) ∧
    (([15, 23] : List ℕ).Nodup ∧ ∀ r ∈ ([15, 23] : List ℕ),
      10 ≤ r ∧ r ≤ 99999 ∧ r ≠ OPEN_SPOT_PRICE_REQ_ID ∧
      r ≠ ALL_OPTION_CONTRACTS_DETAILS_REQ_ID) :=
  ⟨(get_req_id_correct [15, 15, 23] [7] [15, 23] 15
      [sampleDataReq, sampleDataReq] c10Base 0 c10Final [15, 23] (by decide)).1 rfl,
   (get_req_id_correct [15, 15, 23] [7] [15, 23] 15
      [sampleDataReq, sampleDataReq] c10Base 0 c10Final [15, 23] (by decide)).2 rfl⟩

/-! ## One (asset, date) iteration of `main` (`getHistoricalData.py`)

The provider calls an iteration issues, as an explicit effect trace:
`get_all_needed_contracts` issues the reference-price query
(`reqHistoricalData(OPEN_SPOT_PRICE_REQ_ID, ...)`) and the ambiguous
contract-details query (`reqContractDetails(ALL_OPTION_...)`) and blocks on
the responses (given here as a script); only then does `main` compute the
output file name and — when the file exists and the user declines to
overwrite — `continue` to the next date, skipping the paced request loop. -/

inductive Effect where
  | refPriceQuery
  | contractDetailsQuery
  | histDataRequest (req_id : ℕ) (strike : ℚ) (right : String)
      (bid_or_ask : String) (query_time : ℕ)

/-- `contractDetails[strike][right] = contract` over the `defaultdict`. -/
def ainsert2 (all : List StrikeRow) (strike : ℚ) (right : String)
    (c : Contract) : List StrikeRow :=
  match alookup all strike with
  | none => all ++ [(strike, [(right, c)])]
  | some sides => ainsert all strike (ainsert sides right c)

/-- `IBapi.contractDetails`: record the contract under its strike and side
while discovery for the ambiguous query is in flight. -/
def contractDetails (s : AppState) (req_id : ℕ) (c : Contract) : AppState :=
  if req_id = ALL_OPTION_CONTRACTS_DETAILS_REQ_ID then
    { s with chain := { s.chain with
        all_contracts := ainsert2 s.chain.all_contracts c.strike c.right c } }
  else s

/-- `IBapi.contractDetailsEnd`: mark discovery complete. -/
def contractDetailsEnd (s : AppState) (req_id : ℕ) : AppState :=
  if req_id = ALL_OPTION_CONTRACTS_DETAILS_REQ_ID then
    { s with chain := { s.chain with all_contracts_fetched := true } }
  else s

/-- `OPT.get_all_needed_contracts`: fresh `option_chain_data`, clear the
removal queue, fetch the reference price (blocking on the script's bars),
issue the details query and apply the script's detail events until the
end marker, then prune to the ATM band.  The effect list records the two
provider queries issued. -/
def get_all_needed_contracts (s : AppState) (asset : String)
    (spotBars : List Bar) (details : List Contract) (pct : ℚ) :
    Option (AppState × List Effect) :=
  let s1 := { s with
    chain := { underline := asset, open_spot_price := -1, all_contracts := [],
               all_contracts_fetched := false },
    contracts_to_delete := [] }
  match spotWait spotBars s1 with
  | none => none
  | some s2 =>
      let s3 := details.foldl
        (fun st c => contractDetails st ALL_OPTION_CONTRACTS_DETAILS_REQ_ID c) s2
      let s4 := contractDetailsEnd s3 ALL_OPTION_CONTRACTS_DETAILS_REQ_ID
      match keep_close_strikes s4 pct with
      | Except.error _ => none
      | Except.ok s5 =>
          some (s5, [Effect.refPriceQuery, Effect.contractDetailsQuery])

/-- `OPT.get_wanted_contracts`: every stored contract of every strike. -/
def get_wanted_contracts (s : AppState) : List Contract :=
  (s.chain.all_contracts.map (fun p => p.2.map Prod.snd)).flatten

/-- Scripts driving the paced request loop: one gate script per
`check_pacing_violations` call and the shared id draw stream. -/
structure LoopScripts where
  gates : List (List PEvent)
  draws : List ℕ

def takeGate : LoopScripts → List PEvent × LoopScripts
  | ⟨[], d⟩ => ([], ⟨[], d⟩)
  | ⟨g :: gs, d⟩ => (g, ⟨gs, d⟩)

/-- `check_pacing_violations(app)` followed by
`app.send_historical_data_request(DataRequest(contract, qt, isz, side))`. -/
def sendPaced (s : AppState) (c : Contract) (bid_or_ask : String)
    (qt isz now : ℕ) (scr : LoopScripts) :
    Option (AppState × Effect × LoopScripts) :=
  match check_pacing_violations (takeGate scr).1 s with
  | none => none
  | some s1 =>
      match OPT_send_historical_data_request s1
        { contract := c, query_time := qt, interval_size := isz,
          bid_or_ask := bid_or_ask, req_id := -1 } (takeGate scr).2.draws now with
      | none => none
      | some (s2, rid, rest) =>
          some (s2, Effect.histDataRequest rid c.strike c.right bid_or_ask qt,
            { gates := (takeGate scr).2.gates, draws := rest })

/-- The ASK request then the BID request for one contract. -/
def sendContractPair (s : AppState) (c : Contract) (qt isz now : ℕ)
    (scr : LoopScripts) : Option (AppState × List Effect × LoopScripts) :=
  match sendPaced s c "ASK" qt isz now scr with
  | none => none
  | some (s1, e1, scr1) =>
      match sendPaced s1 c "BID" qt isz now scr1 with
      | none => none
      | some (s2, e2, scr2) => some (s2, [e1, e2], scr2)

def processContracts : List Contract → AppState → ℕ → ℕ → ℕ → LoopScripts →
    Option (AppState × List Effect × LoopScripts)
  | [], s, _, _, _, scr => some (s, [], scr)
  | c :: cs, s, qt, isz, now, scr =>
      match sendContractPair s c qt isz now scr with
      | none => none
      | some (s1, effs, scr1) =>
          match processContracts cs s1 qt isz now scr1 with
          | none => none
          | some (s2, effs2, scr2) => some (s2, effs ++ effs2, scr2)

/-- The body of `while query_time < end_time:` in `main`, iterated over the
bucket list: apply accumulated removals, then issue the paced ASK/BID pair
for every live contract. -/
def requestLoop : List (ℕ × ℕ) → AppState → ℕ → LoopScripts →
    Option (AppState × List Effect)
  | [], s, _, _ => some (s, [])
  | (qt, isz) :: rest, s, now, scr =>
      let s0 := remove_contracts s
      match processContracts (get_wanted_contracts s0) s0 qt isz now scr with
      | none => none
      | some (s1, effs, scr1) =>
          match requestLoop rest s1 now scr1 with
          | none => none
          | some (s2, effs2) => some (s2, effs ++ effs2)

/-- `is_file_exists`: `True` (skip the day) exactly when the file exists on
disk and the user's dialog answer is not "yes". -/
def is_file_exists (file_on_disk answer_not_yes : Bool) : Bool :=
  file_on_disk && answer_not_yes

/-- One (asset, date) pass of `main`'s inner loop: materialize the
universe (issuing the reference-price and contract-details queries),
compute the day's buckets, then either skip (existing file, overwrite
declined) or run the paced request loop. -/
def dayIteration (s : AppState) (asset : String) (spotBars : List Bar)
    (details : List Contract) (pct : ℚ)
    (start_time end_time date request_interval : ℕ)
    (file_on_disk answer_not_yes : Bool)
    (now : ℕ) (scr : LoopScripts) : Option (AppState × List Effect) :=
  match get_all_needed_contracts s asset spotBars details pct with
  | none => none
  | some (s1, effs) =>
      let r := get_times_and_interval start_time end_time date request_interval
      if is_file_exists file_on_disk answer_not_yes then some (s1, effs)
      else
        match requestLoop (bucketSeq r.2.2 r.1 r.2.1 request_interval) s1 now scr with
        | none => none
        | some (s2, effs2) => some (s2, effs ++ effs2)

theorem OPT_historicalData_spot_frame {s : AppState} {b : Bar}
    {s' : AppState} {out : Option OutRecord}
    (h : OPT_historicalData s OPEN_SPOT_PRICE_REQ_ID b = Except.ok (s', out)) :
    s'.req_id_to_contract = s.req_id_to_contract ∧
    s'.sent_time_queue = s.sent_time_queue ∧
    s'.contracts_to_delete = s.contracts_to_delete ∧
    s'.mode = s.mode ∧ s'.shift_hours = s.shift_hours ∧
    s'.open_requests = s.open_requests := by
  by_cases hs : s.shift_hours ≤ b.hour
  · simp [OPT_historicalData, shiftBar, if_pos hs] at h
    rw [← h.1]
    exact ⟨rfl, rfl, rfl, rfl, rfl, rfl⟩
  · simp [OPT_historicalData, shiftBar, if_neg hs] at h

theorem spotWait_frame :
    ∀ (bars : List Bar) (s s' : AppState), spotWait bars s = some s' →
    s'.req_id_to_contract = s.req_id_to_contract ∧
    s'.sent_time_queue = s.sent_time_queue ∧
    s'.contracts_to_delete = s.contracts_to_delete ∧
    s'.mode = s.mode ∧ s'.shift_hours = s.shift_hours ∧
    s'.open_requests = s.open_requests := by
  intro bars
  induction bars with
  | nil =>
      intro s s' h
      by_cases hc : s.chain.open_spot_price = -1
      · simp [spotWait, hc] at h
      · simp [spotWait, hc] at h
        rw [← h]
        exact ⟨rfl, rfl, rfl, rfl, rfl, rfl⟩
  | cons b rest ih =>
      intro s s' h
      by_cases hc : s.chain.open_spot_price = -1
      · simp only [spotWait, if_pos hc] at h
        cases hh : OPT_historicalData s OPEN_SPOT_PRICE_REQ_ID b with
        | error e => rw [hh] at h; exact absurd h (by simp)
        | ok p =>
            obtain ⟨s1, out⟩ := p
            rw [hh] at h
            obtain ⟨h1, h2, h3, h4, h5, h6⟩ := ih s1 s' h
            obtain ⟨g1, g2, g3, g4, g5, g6⟩ := OPT_historicalData_spot_frame hh
            exact ⟨h1.trans g1, h2.trans g2, h3.trans g3, h4.trans g4,
              h5.trans g5, h6.trans g6⟩
      · simp [spotWait, hc] at h
        rw [← h]
        exact ⟨rfl, rfl, rfl, rfl, rfl, rfl⟩

theorem keep_close_strikes_frame {s : AppState} {pct : ℚ} {s' : AppState}
    (h : keep_close_strikes s pct = Except.ok s') :
    s'.req_id_to_contract = s.req_id_to_contract ∧
    s'.sent_time_queue = s.sent_time_queue := by
  unfold keep_close_strikes at h
  cases hdel : delAll (akeys (markFar (akeys (chainSorted s)) (atmStrike s) pct
      s.contracts_to_delete)) (chainSorted s) with
  | none => rw [hdel] at h; exact absurd h (by simp)
  | some all' =>
      rw [hdel] at h
      rw [Except.ok.injEq] at h
      rw [← h]
      exact ⟨rfl, rfl⟩

theorem contractDetails_foldl_frame (details : List Contract) :
    ∀ s2 : AppState,
    (details.foldl (fun st c =>
      contractDetails st ALL_OPTION_CONTRACTS_DETAILS_REQ_ID c) s2).sent_time_queue
        = s2.sent_time_queue ∧
    (details.foldl (fun st c =>
      contractDetails st ALL_OPTION_CONTRACTS_DETAILS_REQ_ID c) s2).req_id_to_contract
        = s2.req_id_to_contract := by
  induction details with
  | nil => intro s2; exact ⟨rfl, rfl⟩
  | cons c cs ih =>
      intro s2
      simp only [List.foldl_cons]
      obtain ⟨i1, i2⟩ := ih (contractDetails s2 ALL_OPTION_CONTRACTS_DETAILS_REQ_ID c)
      exact ⟨i1.trans rfl, i2.trans rfl⟩

theorem get_all_needed_contracts_frame {s : AppState} {asset : String}
    {spotBars : List Bar} {details : List Contract} {pct : ℚ}
    {s1 : AppState} {effs : List Effect}
    (h : get_all_needed_contracts s asset spotBars details pct = some (s1, effs)) :
    s1.sent_time_queue = s.sent_time_queue ∧
    s1.req_id_to_contract = s.req_id_to_contract ∧
    effs = [Effect.refPriceQuery, Effect.contractDetailsQuery] := by
  cases hw : spotWait spotBars { s with
      chain := { underline := asset, open_spot_price := -1, all_contracts := [],
                 all_contracts_fetched := false },
      contracts_to_delete := [] } with
  | none =>
      simp only [get_all_needed_contracts, hw] at h
      exact absurd h (by simp)
  | some s2 =>
      simp only [get_all_needed_contracts, hw] at h
      have hw' := spotWait_frame spotBars _ s2 hw
      have hs3frame := contractDetails_foldl_frame details s2
      cases hk : keep_close_strikes
          (contractDetailsEnd (details.foldl (fun st c =>
            contractDetails st ALL_OPTION_CONTRACTS_DETAILS_REQ_ID c) s2)
            ALL_OPTION_CONTRACTS_DETAILS_REQ_ID) pct with
      | error e =>
          simp only [hk] at h
          exact absurd h (by simp)
      | ok s5 =>
          simp only [hk, Option.some.injEq, Prod.mk.injEq] at h
          obtain ⟨hs5, heffs⟩ := h
          obtain ⟨k1, k2⟩ := keep_close_strikes_frame hk
          rw [← hs5]
          refine ⟨?_, ?_, heffs.symm⟩
          · rw [k2]
            show (details.foldl (fun st c =>
              contractDetails st ALL_OPTION_CONTRACTS_DETAILS_REQ_ID c) s2).sent_time_queue
                = s.sent_time_queue
            rw [hs3frame.1, hw'.2.1]
          · rw [k1]
            show (details.foldl (fun st c =>
              contractDetails st ALL_OPTION_CONTRACTS_DETAILS_REQ_ID c) s2).req_id_to_contract
                = s.req_id_to_contract
            rw [hs3frame.2, hw'.1]

/-- C8 (amended): when the day's output file exists and the user declines
to overwrite, the iteration issues no paced historical-data request and
leaves the pacing queue and correlation registry untouched — but the
reference-price query and the contract-details query have already been
issued by `get_all_needed_contracts`, which runs before the existence
check, so the day is not free of provider requests. -/
theorem day_skipped_when_file_exists
    (s : AppState) (asset : String) (spotBars : List Bar)
    (details : List Contract) (pct : ℚ)
    (start_time end_time date request_interval now : ℕ) (scr : LoopScripts)
    (s' : AppState) (effs : List Effect)
    (h : dayIteration s asset spotBars details pct start_time end_time date
          request_interval true true now scr = some (s', effs)) :
    effs = [Effect.refPriceQuery, Effect.contractDetailsQuery] ∧
    s'.sent_time_queue = s.sent_time_queue ∧
    s'.req_id_to_contract = s.req_id_to_contract ∧
    (∀ e ∈ effs, ∀ rid strike right ba qt,
      e ≠ Effect.histDataRequest rid strike right ba qt) := by
  simp only [dayIteration] at h
  cases hg : get_all_needed_contracts s asset spotBars details pct with
  | none => rw [hg] at h; exact absurd h (by simp)
  | some p =>
      obtain ⟨s1, effs1⟩ := p
      rw [hg] at h
      simp only [is_file_exists, Bool.and_self, if_true] at h
      rw [Option.some.injEq, Prod.mk.injEq] at h
      obtain ⟨hs1, heffs⟩ := h
      obtain ⟨f1, f2, f3⟩ := get_all_needed_contracts_frame hg
      subst hs1
      rw [← heffs]
      refine ⟨f3, f1, f2, ?_⟩
      rw [f3]
      intro e he rid strike right ba qt
      rcases List.mem_cons.mp he with h' | h'
      · rw [h']; intro hc; exact Effect.noConfusion hc
      · rw [List.mem_singleton] at h'
        rw [h']; intro hc; exact Effect.noConfusion hc

def c8SpotBar : Bar :=
  { hour := 9, minsec := 3000, bopen := 100, bhigh := 100, blow := 100,
    bclose := 100 }

/-- Start state for the skipped-day run: one live tracked request and one
pacing-queue entry, to make the frame conditions observable. -/
def c8Base : AppState :=
  { req_id_to_contract := [(42, sampleOptEntry)], open_requests := 1,
    sent_time_queue := [5], contracts_to_delete := [], chain := emptyChain,
    mode := "historical", shift_hours := 0 }

def c8After : AppState :=
  { c8Base with
      chain := { underline := "SPY", open_spot_price := 100,
                 all_contracts := [], all_contracts_fetched := true } }

/-- C8 (counterexample to the claim as stated): on a day that is skipped
because its file exists and overwriting is declined, the effect trace
nevertheless contains the reference-price query and the contract-details
query — they were issued before the existence check. -/
theorem day_skip_still_queries :
    dayIteration c8Base "SPY" [c8SpotBar] [] 1 570 960 0 60
        true true 0 { gates := [], draws := [] } =
      some (c8After, [Effect.refPriceQuery, Effect.contractDetailsQuery]) ∧
    Effect.refPriceQuery ∈ [Effect.refPriceQuery, Effect.contractDetailsQuery] ∧
    Effect.contractDetailsQuery ∈ [Effect.refPriceQuery, Effect.contractDetailsQuery] := by
  refine ⟨?_, by simp, by simp⟩
  rfl

/-- C8 witness: the amended theorem at the concrete skipped day. -/
theorem day_skipped_when_file_exists_witness :
    [Effect.refPriceQuery, Effect.contractDetailsQuery] =
      [Effect.refPriceQuery, Effect.contractDetailsQuery] ∧
    c8After.sent_time_queue = c8Base.sent_time_queue ∧
    c8After.req_id_to_contract = c8Base.req_id_to_contract ∧
    (∀ e ∈ [Effect.refPriceQuery, Effect.contractDetailsQuery],
      ∀ rid strike right ba qt,
        e ≠ Effect.histDataRequest rid strike right ba qt) :=
  day_skipped_when_file_exists c8Base "SPY" [c8SpotBar] [] 1
    570 960 0 60 0 { gates := [], draws := [] } c8After
    [Effect.refPriceQuery, Effect.contractDetailsQuery] rfl

end IBPlatform
